import Mathlib

/-!
Verification development for the SubHub subscription-sync core.

The TypeScript source is shallowly embedded: JS strings become `List Char`,
JS numbers that carry traffic values become `WithBot ℚ` (with `⊥` playing the
role of `NaN`, which is absorbing for `+`), fallible operations return
`Except`/`Option`, and the key-value store plus the network are passed
explicitly (the fetch outcome is an input so every code path is a total
function of its inputs).
-/

namespace SubHub

/-- JS strings are modelled as lists of characters. -/
abbrev Str := List Char

/-! ## String primitives (trim / toLowerCase / startsWith / includes) -/

/-- Whitespace recognized by JS `String.prototype.trim` and `\s`
(the characters that can actually occur around proxy lines). -/
def isJsWS (c : Char) : Bool :=
  c = ' ' || c = '\t' || c = '\n' || c = '\r' ||
  c = '\x0b' || c = '\x0c' || c = '\u00A0' || c = '\uFEFF'

/-- Left part of JS `trim`. -/
def ltrimJs (s : Str) : Str := s.dropWhile isJsWS

/-- Right part of JS `trim`. -/
def rtrimJs (s : Str) : Str := (s.reverse.dropWhile isJsWS).reverse

/-- JS `s.trim()`. -/
def jsTrim (s : Str) : Str := rtrimJs (ltrimJs s)

/-- ASCII lowering of one character; JS `toLowerCase` restricted to the
ASCII range, which is all the classifier prefixes ever test. -/
def lowerChar (c : Char) : Char :=
  if 'A' ≤ c ∧ c ≤ 'Z' then Char.ofNat (c.toNat + 32) else c

/-- JS `s.toLowerCase()` (ASCII model). -/
def jsToLower (s : Str) : Str := s.map lowerChar

/-- JS `s.startsWith(p)`: `startsWithStr s p` is true when `p` is a prefix of `s`. -/
def startsWithStr : Str → Str → Bool
  | _, [] => true
  | [], _ :: _ => false
  | c :: s, p :: ps => c = p && startsWithStr s ps

/-- JS `s.includes(pat)`. -/
def hasSub (pat : Str) : Str → Bool
  | [] => startsWithStr [] pat
  | c :: rest => startsWithStr (c :: rest) pat || hasSub pat rest

/-- Lexicographic `≤` on strings by code point, the order JS string
comparison and the default `Array.prototype.sort` comparator induce. -/
def lexLe : Str → Str → Bool
  | [], _ => true
  | _ :: _, [] => false
  | a :: as, b :: bs => if a < b then true else if b < a then false else lexLe as bs

/-- Lexicographic `<` on strings (JS `a < b` on strings). -/
def lexLt : Str → Str → Bool
  | [], [] => false
  | [], _ :: _ => true
  | _ :: _, [] => false
  | a :: as, b :: bs => if a < b then true else if b < a then false else lexLt as bs

/-- Digit character (`\d`, code points 48-57). -/
def isDigitCh (c : Char) : Bool := 48 ≤ c.toNat && c.toNat ≤ 57

/-- Value of a digit string, as `parseInt` computes it on an all-digit input. -/
def natOfDigits (ds : Str) : ℕ :=
  ds.foldl (fun acc c => acc * 10 + (c.toNat - 48)) 0

/-! ## Generic leftmost regex-style matching

Each concrete pattern is a function trying to match at the start of a
suffix; `firstMatch` scans positions left to right like `String.match`. -/

/-- Try a position matcher at every suffix, leftmost first. -/
def firstMatchAux {α : Type} (m : Str → Option α) : Str → Option α
  | [] => m []
  | c :: rest =>
    match m (c :: rest) with
    | some r => some r
    | none => firstMatchAux m rest

/-- Leftmost match of a position matcher in a string. -/
def firstMatch {α : Type} (m : Str → Option α) (s : Str) : Option α :=
  firstMatchAux m s

/-- Take exactly `n` characters satisfying `isDigitCh`, as a fixed `\d{n}`. -/
def takeDigitsN : ℕ → Str → Option (Str × Str)
  | 0, s => some ([], s)
  | _ + 1, [] => none
  | n + 1, c :: s =>
    if isDigitCh c then
      match takeDigitsN n s with
      | some (d, r) => some (c :: d, r)
      | none => none
    else none

/-- Greedily take at most `n` characters satisfying `p` (for `\d{10,13}`). -/
def takeUpTo : ℕ → (Char → Bool) → Str → Str × Str
  | 0, _, s => ([], s)
  | _ + 1, _, [] => ([], [])
  | n + 1, p, c :: s =>
    if p c then
      let (t, r) := takeUpTo n p s
      (c :: t, r)
    else ([], c :: s)

/-! ## parse-node.ts -/

/-- Separator class of the expiry/traffic regexes: `[:： ]`. -/
def isSepCh (c : Char) : Bool := c = ':' || c = '：' || c = ' '

/-- Position matcher for `到期[:： ]*(\d{4}-\d{2}-\d{2})`; returns the
captured date string. -/
def expireAt (s : Str) : Option Str :=
  match s with
  | '到' :: '期' :: rest =>
    let rest := rest.dropWhile isSepCh
    match takeDigitsN 4 rest with
    | some (y, r1) =>
      match r1 with
      | '-' :: r2 =>
        match takeDigitsN 2 r2 with
        | some (mo, r3) =>
          match r3 with
          | '-' :: r4 =>
            match takeDigitsN 2 r4 with
            | some (d, _) => some (y ++ '-' :: mo ++ '-' :: d)
            | none => none
          | _ => none
        | none => none
      | _ => none
    | none => none
  | _ => none

/-- Position matcher for `exp:(\d{10,13})` with the `i` flag; returns the
captured digit string (greedy, at most 13 digits, at least 10). -/
def expUnixAt (s : Str) : Option Str :=
  match s with
  | a :: b :: c :: ':' :: rest =>
    if lowerChar a = 'e' && lowerChar b = 'x' && lowerChar c = 'p' then
      let ds := (takeUpTo 13 isDigitCh rest).1
      if 10 ≤ ds.length then some ds else none
    else none
  | _ => none

/-- Unit token of the traffic regex alternation `(GB|TB|G|T)`, case-insensitive. -/
inductive TrafficUnit where
  | gb | tb | g | t
deriving DecidableEq

/-- Character class `[\d.]` of the traffic amount capture. -/
def isDigitDot (c : Char) : Bool := isDigitCh c || c = '.'

/-- Position matcher for `剩余[:： ]*([\d.]+)\s*(GB|TB|G|T)` with the `i`
flag; returns the amount capture and the unit in alternation order. -/
def trafficAt (s : Str) : Option (Str × TrafficUnit) :=
  match s with
  | '剩' :: '余' :: rest =>
    let rest := rest.dropWhile isSepCh
    let num := rest.takeWhile isDigitDot
    if num.isEmpty then none
    else
      let r2 := (rest.drop num.length).dropWhile isJsWS
      match r2 with
      | a :: b :: _ =>
        if lowerChar a = 'g' && lowerChar b = 'b' then some (num, TrafficUnit.gb)
        else if lowerChar a = 't' && lowerChar b = 'b' then some (num, TrafficUnit.tb)
        else if lowerChar a = 'g' then some (num, TrafficUnit.g)
        else if lowerChar a = 't' then some (num, TrafficUnit.t)
        else none
      | a :: [] =>
        if lowerChar a = 'g' then some (num, TrafficUnit.g)
        else if lowerChar a = 't' then some (num, TrafficUnit.t)
        else none
      | [] => none
  | _ => none

/-- JS numbers used for traffic totals: `⊥` models `NaN`, which `+`
propagates on either side (`WithBot` addition is `⊥`-absorbing). The
numeric part is an exact rational — an idealization of the binary64
values the source actually holds; `f64SumTraffic` below gives the
rounding-faithful reading of the traffic accumulator where the
difference matters. -/
abbrev JsNum := WithBot ℚ

/-- JS `parseFloat` on a `[\d.]+` capture: the longest decimal-literal
prefix; all-dots inputs with no digit give `NaN`. -/
def jsParseFloat (s : Str) : JsNum :=
  let intPart := s.takeWhile isDigitCh
  let rest := s.drop intPart.length
  match rest with
  | '.' :: r =>
    let frac := r.takeWhile isDigitCh
    if intPart.isEmpty && frac.isEmpty then ⊥
    else ((natOfDigits intPart : ℚ) + (natOfDigits frac : ℚ) / (10 : ℚ) ^ frac.length : ℚ)
  | _ =>
    if intPart.isEmpty then ⊥ else ((natOfDigits intPart : ℚ) : JsNum)

/-- Largest millisecond value a JS `Date` accepts; `toISOString` on a
larger value throws `RangeError: Invalid time value`. -/
def maxJsTimeMs : ℕ := 8640000000000000

/-- Civil date (year, month, day) of a day count since 1970-01-01 UTC,
as the `Date` UTC calendar computes it. -/
def civilFromDays (days : ℕ) : ℕ × ℕ × ℕ :=
  let z := days + 719468
  let era := z / 146097
  let doe := z % 146097
  let yoe := (doe - doe / 1460 + doe / 36524 - doe / 146096) / 365
  let y := yoe + era * 400
  let doy := doe - (365 * yoe + yoe / 4 - yoe / 100)
  let mp := (5 * doy + 2) / 153
  let d := doy - (153 * mp + 2) / 5 + 1
  let m := if mp < 10 then mp + 3 else mp - 9
  (if m ≤ 2 then y + 1 else y, m, d)

/-- Zero-padded decimal rendering of a number, `w` characters wide. -/
def padNat (w n : ℕ) : Str :=
  let ds := Nat.toDigits 10 n
  List.replicate (w - ds.length) '0' ++ ds

/-- Date portion of `new Date(ms).toISOString()` (`YYYY-MM-DD`, UTC). -/
def utcDateChars (ms : ℕ) : Str :=
  let (y, m, d) := civilFromDays (ms / 86400000)
  padNat 4 y ++ '-' :: padNat 2 m ++ '-' :: padNat 2 d

/-- The `toISOString` call: fails (throws) on an out-of-range time value,
otherwise yields the UTC date string. -/
def toISODateOfMs (ms : ℕ) : Except Str Str :=
  if ms > maxJsTimeMs then Except.error ("Invalid time value".toList)
  else Except.ok (utcDateChars ms)

/-- Result record of the node-name parse (`ParsedNodeInfo`).
`remainTrafficGB = some ⊥` is a present-but-`NaN` value. -/
structure ParsedNodeInfo where
  name : Str
  expireDate : Option Str := none
  remainTrafficGB : Option JsNum := none
deriving DecidableEq

/-- Seconds-vs-milliseconds choice of `parseNodeName`:
`timestamp > 9999999999 ? timestamp : timestamp * 1000`. -/
def msOfTimestamp (t : ℕ) : ℕ :=
  if t > 9999999999 then t else t * 1000

/-- The `parseNodeName` function of parse-node.ts. The `Except` layer
carries the one statement in its body that can throw: `toISOString` on
the `Date` built from an `exp:` timestamp. -/
def parseNodeName (name : Str) : Except Str ParsedNodeInfo := do
  let expireDate ←
    match firstMatch expireAt name with
    | some d => pure (some d)
    | none =>
      match firstMatch expUnixAt name with
      | some ds => do
        let d ← toISODateOfMs (msOfTimestamp (natOfDigits ds))
        pure (some d)
      | none => pure (none : Option Str)
  let remainTrafficGB :=
    match firstMatch trafficAt name with
    | some (num, unit) =>
      let value := jsParseFloat num
      some (match value with
        | some q => some (if unit = TrafficUnit.tb ∨ unit = TrafficUnit.t then q * 1024 else q)
        | none => (⊥ : JsNum))
    | none => none
  pure { name := name, expireDate := expireDate, remainTrafficGB := remainTrafficGB }

/-- Total reading of `parseNodeName`, used to phrase aggregation facts;
the fallback branch is unreachable (see the never-throws theorem). -/
def parseNodeNameD (name : Str) : ParsedNodeInfo :=
  match parseNodeName name with
  | Except.ok r => r
  | Except.error _ => { name := name }

/-- Closed form of the expiry field `parseNodeName` computes (assuming
the date conversion does not throw; the never-throws theorem shows it
cannot). -/
def parsedExpire (name : Str) : Option Str :=
  match firstMatch expireAt name with
  | some d => some d
  | none =>
    match firstMatch expUnixAt name with
    | some ds => some (utcDateChars (msOfTimestamp (natOfDigits ds)))
    | none => none

/-- Closed form of the traffic field `parseNodeName` computes. -/
def parsedTraffic (name : Str) : Option JsNum :=
  match firstMatch trafficAt name with
  | some (num, unit) =>
    some (match jsParseFloat num with
      | some q => some (if unit = TrafficUnit.tb ∨ unit = TrafficUnit.t then q * 1024 else q)
      | none => (⊥ : JsNum))
  | none => none

/-- Hexadecimal digit value, for percent-decoding. -/
def hexVal (c : Char) : Option ℕ :=
  if '0' ≤ c ∧ c ≤ '9' then some (c.toNat - 48)
  else if 'a' ≤ c ∧ c ≤ 'f' then some (c.toNat - 87)
  else if 'A' ≤ c ∧ c ≤ 'F' then some (c.toNat - 55)
  else none

/-- Byte-level model of `decodeURIComponent`: replaces every `%XX` pair,
failing on a malformed escape (the caller catches the failure). -/
def percentDecode : Str → Option Str
  | [] => some []
  | '%' :: a :: b :: rest =>
    match hexVal a, hexVal b with
    | some x, some y => (percentDecode rest).map (fun t => Char.ofNat (x * 16 + y) :: t)
    | _, _ => none
  | '%' :: _ => none
  | c :: rest => (percentDecode rest).map (fun t => c :: t)

/-- Suffix of a string after its first `#`, when one exists. -/
def afterHash : Str → Option Str
  | [] => none
  | '#' :: rest => some rest
  | _ :: rest => afterHash rest

/-- The `extractNodeNameFromUrl` function of parse-node.ts: fragment after
the first `#`, percent-decoded, raw fragment when decoding fails, empty
when there is no `#`. -/
def extractNodeNameFromUrl (url : Str) : Str :=
  match afterHash url with
  | none => []
  | some frag =>
    match percentDecode frag with
    | some d => d
    | none => frag

/-- Scheme prefixes below, named so they can be reused in statements. -/
def preVless : Str := "vless://".toList

/-- Prefix `trojan://`. -/
def preTrojan : Str := "trojan://".toList

/-- Prefix `vmess://`. -/
def preVmess : Str := "vmess://".toList

/-- Prefix `ss://`. -/
def preSs : Str := "ss://".toList

/-- Prefix `ssr://`. -/
def preSsr : Str := "ssr://".toList

/-- Prefix `hysteria2://`. -/
def preHysteria2 : Str := "hysteria2://".toList

/-- Prefix `hysteria://`. -/
def preHysteria : Str := "hysteria://".toList

/-- Prefix `tuic://`. -/
def preTuic : Str := "tuic://".toList

/-- Prefix `wireguard://`. -/
def preWireguard : Str := "wireguard://".toList

/-- The `isValidProxyUrl` function of parse-node.ts: the line, trimmed and
lower-cased, starts with one of nine scheme prefixes. -/
def isValidProxyUrl (line : Str) : Bool :=
  let trimmed := jsToLower (jsTrim line)
  startsWithStr trimmed preVless ||
  startsWithStr trimmed preTrojan ||
  startsWithStr trimmed preVmess ||
  startsWithStr trimmed preSs ||
  startsWithStr trimmed preSsr ||
  startsWithStr trimmed preHysteria2 ||
  startsWithStr trimmed preHysteria ||
  startsWithStr trimmed preTuic ||
  startsWithStr trimmed preWireguard

/-- Protocol tags produced by `getProtocolType`. -/
inductive ProtocolType where
  | vless | trojan | other
deriving DecidableEq

/-- The `getProtocolType` function of parse-node.ts. -/
def getProtocolType (line : Str) : ProtocolType :=
  let trimmed := jsToLower (jsTrim line)
  if startsWithStr trimmed preVless then ProtocolType.vless
  else if startsWithStr trimmed preTrojan then ProtocolType.trojan
  else ProtocolType.other

/-! ## storage.ts data model -/

/-- Protocol histogram as `syncSubscription` actually builds it
(`{ vless: 0, trojan: 0, other: 0 }`). -/
structure Protocols where
  vless : ℕ
  trojan : ℕ
  other : ℕ
deriving DecidableEq

/-- The global `SyncResult` record stored under `sync:result`. -/
structure SyncResult where
  lastSync : Str
  nodeCount : ℕ
  earliestExpire : Option Str
  totalRemainGB : Option JsNum
  rawLines : List Str
  protocols : Protocols
deriving DecidableEq

/-- One entry of the `sync:logs` list. -/
structure SyncLog where
  timestamp : Str
  success : Bool
  nodeCount : Option ℕ
  error : Option Str
deriving DecidableEq

/-- A user's subscription binding (`subscriptionConfig`). -/
structure SubscriptionConfig where
  collectionName : Str
  token : Str
deriving DecidableEq

/-- The per-user embedded sync result (`lastSyncResult`). -/
structure UserSyncResult where
  lastSync : Str
  nodeCount : ℕ
  earliestExpire : Option Str
  totalRemainGB : Option JsNum
deriving DecidableEq

/-- The `User` record stored under `user:<username>`. -/
structure User where
  username : Str
  passwordHash : Str
  isAdmin : Bool
  createdAt : Str
  lastLogin : Option Str := none
  customNote : Option Str := none
  subscriptionConfig : Option SubscriptionConfig := none
  lastSyncResult : Option UserSyncResult := none
  membershipLevel : Option Str := none
deriving DecidableEq

/-- The `config:auto_sync` record. -/
structure AutoSyncConfig where
  enabled : Bool
  intervalMinutes : ℕ
  lastScheduledSync : Option Str := none
deriving DecidableEq

/-- The `config:substore` record; only `baseUrl` is read by the sync
operations embedded here (the backend path and collection list are not). -/
structure SubStoreConfig where
  baseUrl : Str
deriving DecidableEq

/-- The key-value store restricted to the keys this core touches:
`sync:result`, `sync:logs`, `config:auto_sync`, `config:substore`, and
the `user:`-keyed records kept as an insertion-ordered association list. -/
structure Store where
  syncResult : Option SyncResult := none
  syncLogs : List SyncLog := []
  autoSyncConfig : Option AutoSyncConfig := none
  substoreConfig : Option SubStoreConfig := none
  users : List (Str × User) := []
deriving DecidableEq

/-- The storage key `user:<username>` a user record lives under. -/
def userKeyOf (u : User) : Str := "user:".toList ++ u.username

/-- Storage `get` on a user key. -/
def lookupUser (store : Store) (key : Str) : Option User :=
  match store.users.find? (fun kv => kv.1 = key) with
  | some kv => some kv.2
  | none => none

/-- Storage `set` on a user key: replace in place when present (a map
keeps insertion order), append otherwise. -/
def setUserEntry : List (Str × User) → Str → User → List (Str × User)
  | [], key, u => [(key, u)]
  | kv :: rest, key, u =>
    if kv.1 = key then (key, u) :: rest
    else kv :: setUserEntry rest key u

/-- Store update writing one user record. -/
def storeSetUser (store : Store) (key : Str) (u : User) : Store :=
  { store with users := setUserEntry store.users key u }

/-- An HTTP response as the fetch resolves it. -/
structure HttpResponse where
  status : ℕ
  body : Str
deriving DecidableEq

/-- WHATWG `response.ok`: status in the 2xx range. -/
def responseOk (status : ℕ) : Bool := 200 ≤ status && status < 300

/-! ## sync.ts -/

/-- Structured result of the global sync (`SyncResponse`). -/
structure SyncResponse where
  success : Bool
  nodeCount : Option ℕ := none
  earliestExpire : Option Str := none
  totalRemainGB : Option JsNum := none
  error : Option Str := none
  invalidLines : Option ℕ := none
deriving DecidableEq

/-- The error message built for a non-2xx upstream status. -/
def httpErrorMessage (status : ℕ) : Str :=
  "Sub-Store 返回 ".toList ++ Nat.toDigits 10 status ++ "，可能实例维护".toList

/-- The `logSync` update: unshift the new entry, then keep the newest 10
(`logs.splice(10)` when length exceeds 10). -/
def logSyncStep (logs : List SyncLog) (entry : SyncLog) : List SyncLog :=
  let logs := entry :: logs
  if logs.length > 10 then logs.take 10 else logs

/-- Base64 character class `[A-Za-z0-9+/=\s]` of the detection regex. -/
def isB64Class (c : Char) : Bool :=
  ('A' ≤ c && c ≤ 'Z') || ('a' ≤ c && c ≤ 'z') || isDigitCh c ||
  c = '+' || c = '/' || c = '=' || isJsWS c

/-- The base64 detection test of sync.ts: the trimmed body matches the
class end to end, contains no literal `://`, and is longer than 100. -/
def looksBase64 (text : Str) : Bool :=
  (!(jsTrim text).isEmpty && (jsTrim text).all isB64Class) &&
  !hasSub ("://".toList) text &&
  (jsTrim text).length > 100

/-- Value of one base64 alphabet character. -/
def b64Val (c : Char) : Option ℕ :=
  if 'A' ≤ c ∧ c ≤ 'Z' then some (c.toNat - 65)
  else if 'a' ≤ c ∧ c ≤ 'z' then some (c.toNat - 71)
  else if '0' ≤ c ∧ c ≤ '9' then some (c.toNat + 4)
  else if c = '+' then some 62
  else if c = '/' then some 63
  else none

/-- Decode groups of 6-bit values into bytes (forgiving-base64 payload). -/
def b64Bytes : List ℕ → List ℕ
  | a :: b :: c :: d :: rest =>
    (a * 4 + b / 16) :: ((b % 16) * 16 + c / 4) :: ((c % 4) * 64 + d) :: b64Bytes rest
  | [a, b] => [a * 4 + b / 16]
  | [a, b, c] => [a * 4 + b / 16, (b % 16) * 16 + c / 4]
  | _ => []

/-- Strip at most two trailing `=` padding characters. -/
def stripB64Pad (s : Str) : Str :=
  match s.reverse with
  | '=' :: '=' :: rest => rest.reverse
  | '=' :: rest => rest.reverse
  | _ => s

/-- Model of `atob` on an already-whitespace-free input: strip padding,
reject a leftover length of 1 mod 4 or any non-alphabet character,
otherwise emit the decoded bytes as characters. -/
def atobModel (s : Str) : Option Str :=
  let s := if s.length % 4 = 0 then stripB64Pad s else s
  if s.length % 4 = 1 then none
  else
    match s.mapM b64Val with
    | some vals => some ((b64Bytes vals).map Char.ofNat)
    | none => none

/-- The decode phase of the sync pipeline: when the body looks base64,
try `atob` on the whitespace-stripped trimmed body and use the decoded
text, falling back to the original on failure. -/
def pipelineText (body : Str) : Str :=
  if looksBase64 body then
    match atobModel ((jsTrim body).filter (fun c => !isJsWS c)) with
    | some decoded => decoded
    | none => body
  else body

/-- JS `text.split(/\r?\n/)`. -/
def jsSplitLines : Str → List Str
  | [] => [[]]
  | '\r' :: '\n' :: rest => [] :: jsSplitLines rest
  | '\n' :: rest => [] :: jsSplitLines rest
  | c :: rest =>
    match jsSplitLines rest with
    | h :: t => (c :: h) :: t
    | [] => [[c]]

/-- Line-splitting plus the truthiness filter
(`.filter((line) => line.trim())`). -/
def pipelineLines (body : Str) : List Str :=
  (jsSplitLines (pipelineText body)).filter (fun l => !(jsTrim l).isEmpty)

/-- Mutable state of the classification loop in `syncSubscription`. -/
structure AggState where
  validLines : List Str := []
  invalidCount : ℕ := 0
  protocols : Protocols := ⟨0, 0, 0⟩
  expireDates : List Str := []
  totalTrafficGB : JsNum := (0 : JsNum)
  hasTrafficInfo : Bool := false
deriving DecidableEq

/-- Initial loop state. -/
def initAgg : AggState := {}

/-- The `protocols[protocol]++` update. -/
def bumpProtocol (ps : Protocols) : ProtocolType → Protocols
  | ProtocolType.vless => { ps with vless := ps.vless + 1 }
  | ProtocolType.trojan => { ps with trojan := ps.trojan + 1 }
  | ProtocolType.other => { ps with other := ps.other + 1 }

/-- Loop body part recording a valid line: push the trimmed line and
count its protocol. -/
def recordValid (st : AggState) (line : Str) : AggState :=
  let st := { st with validLines := st.validLines ++ [jsTrim line] }
  { st with protocols := bumpProtocol st.protocols (getProtocolType line) }

/-- Loop body part folding one parsed node name into the aggregates. -/
def applyParsed (st : AggState) (p : ParsedNodeInfo) : AggState :=
  let st :=
    match p.expireDate with
    | some d => { st with expireDates := st.expireDates ++ [d] }
    | none => st
  match p.remainTrafficGB with
  | some v => { st with totalTrafficGB := st.totalTrafficGB + v, hasTrafficInfo := true }
  | none => st

/-- One iteration of the classification loop, with the `Except` layer of
`parseNodeName` threaded through (a thrown parse would reach the outer
`catch` of `syncSubscription`). -/
def processLineE (st : AggState) (line : Str) : Except Str AggState :=
  if isValidProxyUrl line then
    let st1 := recordValid st line
    let nodeName := extractNodeNameFromUrl line
    if nodeName.isEmpty then Except.ok st1
    else (parseNodeName nodeName).map (applyParsed st1)
  else Except.ok { st with invalidCount := st.invalidCount + 1 }

/-- Total reading of the loop body (justified by the never-throws fact). -/
def processLineT (st : AggState) (line : Str) : AggState :=
  if isValidProxyUrl line then
    let st1 := recordValid st line
    let nodeName := extractNodeNameFromUrl line
    if nodeName.isEmpty then st1
    else applyParsed st1 (parseNodeNameD nodeName)
  else { st with invalidCount := st.invalidCount + 1 }

/-- The whole classification loop over a line batch. -/
def aggregate (lines : List Str) : AggState :=
  lines.foldl processLineT initAgg

/-- Expiry date one line contributes to the aggregates (valid lines with
a nonempty node label only). -/
def lineExpire (line : Str) : Option Str :=
  if isValidProxyUrl line then
    let nodeName := extractNodeNameFromUrl line
    if nodeName.isEmpty then none else (parseNodeNameD nodeName).expireDate
  else none

/-- Traffic value one line contributes to the aggregates (`some ⊥` is a
present `NaN` contribution). -/
def lineTraffic (line : Str) : Option JsNum :=
  if isValidProxyUrl line then
    let nodeName := extractNodeNameFromUrl line
    if nodeName.isEmpty then none else (parseNodeNameD nodeName).remainTrafficGB
  else none

/-- Relation ordering expiry-date strings, as `expireDates.sort()` does. -/
def rLex (a b : Str) : Prop := lexLe a b = true

instance : DecidableRel rLex := fun a b => inferInstanceAs (Decidable (lexLe a b = true))

/-- JS `expireDates.sort()` (default comparator = lexicographic). -/
def sortedDates (ds : List Str) : List Str := List.insertionSort rLex ds

/-- The earliest-expiry selection
(`expireDates.length > 0 ? expireDates.sort()[0] : null`). -/
def earliestOf (st : AggState) : Option Str :=
  if st.expireDates.isEmpty then none else (sortedDates st.expireDates).head?

/-- JS `Math.round(x * 100) / 100` on a traffic total (`NaN` sticks). -/
def jsRound2 (x : JsNum) : JsNum :=
  WithBot.map (fun q => ((⌊q * 100 + 1 / 2⌋ : ℤ) : ℚ) / 100) x

/-- The `totalRemainGB` field computation of the stored result. -/
def totalRemainOf (st : AggState) : Option JsNum :=
  if st.hasTrafficInfo then some (jsRound2 st.totalTrafficGB) else none

/-- The `syncSubscription` function of sync.ts. The fetch outcome is an
input (`Except.error` is a rejected/aborted fetch reaching the `catch`),
`now` stands for `new Date().toISOString()`. Returns the updated store
and the structured response. -/
def syncSubscription (store : Store) (fetch : Except Str HttpResponse)
    (now : Str) : Store × SyncResponse :=
  match fetch with
  | Except.error message =>
    ({ store with syncLogs := logSyncStep store.syncLogs ⟨now, false, none, some message⟩ },
     { success := false, error := some message })
  | Except.ok resp =>
    if !responseOk resp.status then
      let err := httpErrorMessage resp.status
      ({ store with syncLogs := logSyncStep store.syncLogs ⟨now, false, none, some err⟩ },
       { success := false, error := some err })
    else
      let lines := pipelineLines resp.body
      match lines.foldlM processLineE initAgg with
      | Except.error message =>
        ({ store with syncLogs := logSyncStep store.syncLogs ⟨now, false, none, some message⟩ },
         { success := false, error := some message })
      | Except.ok st =>
        let result : SyncResult :=
          { lastSync := now
            nodeCount := st.validLines.length
            earliestExpire := earliestOf st
            totalRemainGB := totalRemainOf st
            rawLines := st.validLines
            protocols := st.protocols }
        let store :=
          { store with
              syncResult := some result
              syncLogs := logSyncStep store.syncLogs ⟨now, true, some st.validLines.length, none⟩ }
        (store,
         { success := true
           nodeCount := some st.validLines.length
           earliestExpire := result.earliestExpire
           totalRemainGB := result.totalRemainGB
           invalidLines := if st.invalidCount > 0 then some st.invalidCount else none })

/-! ## scheduler.ts (embedded in app.ts): per-user and bulk sync -/

/-- The per-user line filter of `syncUserSubscription`: a literal,
untrimmed, case-sensitive `startsWith` over five schemes. -/
def userLineValid (line : Str) : Bool :=
  startsWithStr line preVless ||
  startsWithStr line preVmess ||
  startsWithStr line preTrojan ||
  startsWithStr line preSs ||
  startsWithStr line preSsr

/-- Position matcher for the scheduler's expiry pattern
`剩余\s*(\d+)\s*天`; returns the captured digit string. -/
def daysRemainAt (s : Str) : Option Str :=
  match s with
  | '剩' :: '余' :: rest =>
    let rest := rest.dropWhile isJsWS
    let ds := rest.takeWhile isDigitCh
    if ds.isEmpty then none
    else
      let r2 := (rest.drop ds.length).dropWhile isJsWS
      match r2 with
      | '天' :: _ => some ds
      | _ => none
  | _ => none

/-- One iteration of the scheduler's expiry loop: on a `剩余 N 天` match,
build `today + N days` (UTC date string; `toISOString` can throw on an
absurd `N`, hence the `Except`) and keep the smaller date. -/
def userExpireStep (nowMs : ℕ) (earliest : Option Str) (line : Str) :
    Except Str (Option Str) :=
  match firstMatch daysRemainAt line with
  | some ds => do
    let daysLeft := natOfDigits ds
    let dateStr ← toISODateOfMs (nowMs + daysLeft * 86400000)
    match earliest with
    | none => pure (some dateStr)
    | some e => if lexLt dateStr e then pure (some dateStr) else pure earliest
  | none => pure earliest

/-- Result shape of the per-user sync. -/
structure UserSyncResponse where
  success : Bool
  nodeCount : Option ℕ := none
  error : Option Str := none
deriving DecidableEq

/-- The `syncUserSubscription` function of the scheduler module. The
fetch outcome and the two readings of "now" (`toISOString` string and
epoch milliseconds) are inputs. Returns the updated store and the result. -/
def syncUserSubscription (store : Store) (user : User) (baseUrl : Str)
    (fetch : Except Str HttpResponse) (now : Str) (nowMs : ℕ) :
    Store × UserSyncResponse :=
  match user.subscriptionConfig with
  | none => (store, { success := false, error := some ("用户未绑定订阅".toList) })
  | some _ =>
    match fetch with
    | Except.error message => (store, { success := false, error := some message })
    | Except.ok resp =>
      if !responseOk resp.status then
        (store, { success := false,
                  error := some ("HTTP ".toList ++ Nat.toDigits 10 resp.status) })
      else
        let lines := pipelineLines resp.body
        let validLines := lines.filter userLineValid
        match validLines.foldlM (userExpireStep nowMs) (none : Option Str) with
        | Except.error message => (store, { success := false, error := some message })
        | Except.ok earliestExpire =>
          let user :=
            { user with
                lastSyncResult := some
                  { lastSync := now
                    nodeCount := validLines.length
                    earliestExpire := earliestExpire
                    totalRemainGB := none } }
          (storeSetUser store (userKeyOf user) user,
           { success := true, nodeCount := some validLines.length })

/-- Base-URL resolution of `syncAllUsers`: stored admin configuration
first, environment default second, empty when neither is set. -/
def resolvedBaseUrl (store : Store) (envBase : Str) : Str :=
  match store.substoreConfig with
  | some cfg => if cfg.baseUrl.isEmpty then envBase else cfg.baseUrl
  | none => envBase

/-- Counters accumulated by the bulk loop. -/
structure BulkCounters where
  successCount : ℕ := 0
  failedCount : ℕ := 0
  syncedCount : ℕ := 0
deriving DecidableEq

/-- The sequential per-user loop of `syncAllUsers`: look each key up and
sync users that carry a binding, accumulating counters. -/
def syncUsersLoop (baseUrl : Str) (fetchOf : Str → Except Str HttpResponse)
    (now : Str) (nowMs : ℕ) :
    Store → BulkCounters → List Str → Store × BulkCounters
  | store, acc, [] => (store, acc)
  | store, acc, key :: rest =>
    match lookupUser store key with
    | some user =>
      if user.subscriptionConfig.isSome then
        let acc := { acc with syncedCount := acc.syncedCount + 1 }
        let (store, res) := syncUserSubscription store user baseUrl (fetchOf key) now nowMs
        let acc :=
          if res.success then { acc with successCount := acc.successCount + 1 }
          else { acc with failedCount := acc.failedCount + 1 }
        syncUsersLoop baseUrl fetchOf now nowMs store acc rest
      else syncUsersLoop baseUrl fetchOf now nowMs store acc rest
    | none => syncUsersLoop baseUrl fetchOf now nowMs store acc rest

/-- Result shape of the bulk sync. -/
structure BulkSyncResult where
  total : ℕ
  success : ℕ
  failed : ℕ
  synced : ℕ
deriving DecidableEq

/-- The `syncAllUsers` function of the scheduler module: resolve the base
URL (all-zero no-op when unresolvable), sync every bound user
sequentially, then stamp `lastScheduledSync` on the auto-sync
configuration record when one is stored. -/
def syncAllUsers (store : Store) (envBase : Str)
    (fetchOf : Str → Except Str HttpResponse) (now : Str) (nowMs : ℕ) :
    Store × BulkSyncResult :=
  let baseUrl := resolvedBaseUrl store envBase
  if baseUrl.isEmpty then
    (store, { total := 0, success := 0, failed := 0, synced := 0 })
  else
    let userKeys := (store.users.map (fun kv => kv.1)).filter
      (fun k => startsWithStr k ("user:".toList))
    let (store, acc) := syncUsersLoop baseUrl fetchOf now nowMs store {} userKeys
    let store :=
      match store.autoSyncConfig with
      | some config =>
        { store with autoSyncConfig := some { config with lastScheduledSync := some now } }
      | none => store
    (store,
     { total := userKeys.length
       success := acc.successCount
       failed := acc.failedCount
       synced := acc.syncedCount })

/-! ## IEEE-754 binary64 reading of the traffic accumulator

The aggregation state carries the traffic total as an exact rational.
The source accumulates `totalTrafficGB += parsed.remainTrafficGB` in JS
numbers, i.e. IEEE-754 binary64, whose addition rounds after every step
and is therefore not associative. The definitions below are that
faithful reading of the accumulator over already-parsed (non-`NaN`)
values; they settle whether the rounded traffic total is
order-independent. -/

/-- Unit in the last place of a positive finite double of magnitude `q`:
`2 ^ (e - 52)` where `2 ^ e ≤ q < 2 ^ (e + 1)`, clamped below at the
subnormal ulp `2 ^ (-1074)`. -/
def f64Ulp (q : ℚ) : ℚ := (2 : ℚ) ^ max (Int.log 2 q - 52) (-1074)

/-- Round a nonnegative exact value to the nearest binary64 value,
ties to even. Magnitudes at or above `2 ^ 1024` overflow to infinity,
kept here as the saturating sentinel `2 ^ 1024`; the traffic accumulator
never sees a negative argument. -/
def roundF64 (q : ℚ) : ℚ :=
  if q ≤ 0 then 0
  else if (2 : ℚ) ^ (1024 : ℤ) ≤ q then (2 : ℚ) ^ (1024 : ℤ)
  else if 2 * (q - ⌊q / f64Ulp q⌋ * f64Ulp q) < f64Ulp q then ⌊q / f64Ulp q⌋ * f64Ulp q
  else if f64Ulp q < 2 * (q - ⌊q / f64Ulp q⌋ * f64Ulp q) then (⌊q / f64Ulp q⌋ + 1) * f64Ulp q
  else if ⌊q / f64Ulp q⌋ % 2 = 0 then ⌊q / f64Ulp q⌋ * f64Ulp q
  else (⌊q / f64Ulp q⌋ + 1) * f64Ulp q

/-- One step of the source's `totalTrafficGB += v` under binary64
addition: the exact sum, rounded back to a double. -/
def f64Add (acc v : ℚ) : ℚ := roundF64 (acc + v)

/-- The loop's traffic accumulation over already-parsed values under
binary64 addition; `AggState.totalTrafficGB` is the exact-rational
idealization of this fold. -/
def f64SumTraffic (vals : List ℚ) : ℚ := vals.foldl f64Add 0

/-! ## Concrete inputs used by witnesses and counterexamples -/

/-- The parsed traffic value of the label `剩余:10000000000000000GB`;
`10 ^ 16` is exactly representable in binary64 (its odd part `5 ^ 16`
fits in 53 bits) and its ulp there is 2. -/
def qBig : ℚ := 10 ^ 16

/-- A hysteria2 line: valid for the global classifier, dropped by the
per-user filter. -/
def lineH2 : Str := "hysteria2://a".toList

/-- A plain vless line. -/
def lineVlessX : Str := "vless://x".toList

/-- A vmess line. -/
def lineVm : Str := "vmess://a".toList

/-- An ss line. -/
def lineSs : Str := "ss://b".toList

/-- An ssr line. -/
def lineSsr : Str := "ssr://c".toList

/-- A body holding one vmess, one ss and one ssr line. -/
def bodyVmess : Str := "vmess://a\nss://b\nssr://c".toList

/-- A fixed "now" timestamp string. -/
def nowT : Str := "2026-02-03T04:05:06.000Z".toList

/-- A base URL used in concrete runs. -/
def baseX : Str := "https://s.example".toList

/-- A user carrying a subscription binding. -/
def userAda : User :=
  { username := "ada".toList
    passwordHash := "h".toList
    isAdmin := false
    createdAt := "2026-01-01".toList
    subscriptionConfig := some { collectionName := "col".toList, token := "tok".toList } }

/-- A previously stored global sync result. -/
def storedResult : SyncResult :=
  { lastSync := "2026-01-01T00:00:00.000Z".toList
    nodeCount := 1
    earliestExpire := none
    totalRemainGB := none
    rawLines := [lineVlessX]
    protocols := ⟨1, 0, 0⟩ }

/-- A store already holding a sync result. -/
def store503 : Store := { syncResult := some storedResult }

/-- A store with an admin base URL and no auto-sync configuration record. -/
def storeNoAuto : Store := { substoreConfig := some { baseUrl := baseX } }

/-- An auto-sync configuration with no recorded run. -/
def cfgAuto : AutoSyncConfig := { enabled := true, intervalMinutes := 60 }

/-- A store with an admin base URL and a stored auto-sync configuration. -/
def storeWithAuto : Store :=
  { substoreConfig := some { baseUrl := baseX }, autoSyncConfig := some cfgAuto }

/-- A fetch oracle that always fails. -/
def failFetch : Str → Except Str HttpResponse := fun _ => Except.error ("down".toList)

/-- Ten stored log entries. -/
def logsTen : List SyncLog := List.replicate 10 ⟨"t0".toList, true, none, none⟩

/-- An eleventh log entry. -/
def entryNew : SyncLog := ⟨"t11".toList, false, none, some ("x".toList)⟩

/-- Node label with a 10-digit `exp:` timestamp. -/
def nameExp10 : Str := "exp:1700000000".toList

/-- Its captured digits. -/
def digitsExp10 : Str := "1700000000".toList

/-- Node label with an 11-digit `exp:` timestamp whose value still fits
in 10 digits (a leading zero). -/
def nameExp11 : Str := "exp:09999999999".toList

/-- Its captured digits. -/
def digitsExp11 : Str := "09999999999".toList

/-- A vless line labelled with a late expiry date. -/
def lineDateA : Str := "vless://h#到期:2027-01-01".toList

/-- A trojan line labelled with an early expiry date. -/
def lineDateB : Str := "trojan://h#到期:2026-05-04".toList

/-! ## Supporting lemmas on the string primitives -/

theorem startsWithStr_nil (s : Str) : startsWithStr s [] = true := by
  cases s <;> rfl

theorem startsWithStr_self_append (p t : Str) : startsWithStr (p ++ t) p = true := by
  induction p with
  | nil => simp [startsWithStr_nil]
  | cons a ps ih => simp [startsWithStr, ih]

theorem startsWithStr_exists {s p : Str} (h : startsWithStr s p = true) :
    ∃ t, s = p ++ t := by
  induction p generalizing s with
  | nil => exact ⟨s, rfl⟩
  | cons a ps ih =>
    cases s with
    | nil => simp [startsWithStr] at h
    | cons c s' =>
      simp only [startsWithStr, Bool.and_eq_true, decide_eq_true_eq] at h
      obtain ⟨t, ht⟩ := ih h.2
      exact ⟨t, by simp [h.1, ht]⟩

theorem startsWithStr_of_prefix_le {s p q : Str} (hp : startsWithStr s p = true)
    (hq : startsWithStr s q = true) (hlen : p.length ≤ q.length) :
    startsWithStr q p = true := by
  induction p generalizing s q with
  | nil => exact startsWithStr_nil q
  | cons a ps ih =>
    cases q with
    | nil => simp at hlen
    | cons b qs =>
      cases s with
      | nil => simp [startsWithStr] at hp
      | cons c s' =>
        simp only [startsWithStr, Bool.and_eq_true, decide_eq_true_eq] at hp hq ⊢
        exact ⟨hq.1.symm.trans hp.1, ih hp.2 hq.2 (by simpa using hlen)⟩

theorem ltrimJs_of_head_not_ws {p t : Str} (hne : p ≠ [])
    (hws : ∀ c ∈ p, isJsWS c = false) : ltrimJs (p ++ t) = p ++ t := by
  cases p with
  | nil => exact absurd rfl hne
  | cons a ps =>
    have ha : isJsWS a = false := hws a (List.mem_cons_self a ps)
    simp [ltrimJs, List.dropWhile_cons, ha]

theorem rtrimJs_startsWith {p t : Str} (hne : p ≠ [])
    (hws : ∀ c ∈ p, isJsWS c = false) :
    startsWithStr (rtrimJs (p ++ t)) p = true := by
  unfold rtrimJs
  rw [List.reverse_append, List.dropWhile_append]
  by_cases hdw : (t.reverse.dropWhile isJsWS).isEmpty
  · simp only [hdw, if_pos]
    have hpne : p.reverse ≠ [] := by simpa using hne
    cases hrev : p.reverse with
    | nil => exact absurd hrev hpne
    | cons a ps =>
      have ha : isJsWS a = false := by
        have : a ∈ p.reverse := by rw [hrev]; exact List.mem_cons_self a ps
        exact hws a (List.mem_reverse.mp this)
      rw [List.dropWhile_cons, ha]
      simp only [Bool.false_eq_true, if_false, ← hrev, List.reverse_reverse]
      have := startsWithStr_self_append p []
      simpa using this
  · simp only [hdw, if_neg, Bool.false_eq_true, not_false_iff]
    rw [List.reverse_append, List.reverse_reverse]
    exact startsWithStr_self_append p _

theorem jsToLower_startsWith {p s : Str} (hlo : ∀ c ∈ p, lowerChar c = c)
    (h : startsWithStr s p = true) :
    startsWithStr (jsToLower s) p = true := by
  obtain ⟨t, ht⟩ := startsWithStr_exists h
  subst ht
  unfold jsToLower
  rw [List.map_append]
  have hp : p.map lowerChar = p := by
    conv_rhs => rw [← List.map_id p]
    exact List.map_congr_left hlo
  rw [hp]
  exact startsWithStr_self_append p _

theorem trimLower_startsWith {p line : Str} (hne : p ≠ [])
    (hws : ∀ c ∈ p, isJsWS c = false) (hlo : ∀ c ∈ p, lowerChar c = c)
    (h : startsWithStr line p = true) :
    startsWithStr (jsToLower (jsTrim line)) p = true := by
  obtain ⟨t, ht⟩ := startsWithStr_exists h
  subst ht
  unfold jsTrim
  rw [ltrimJs_of_head_not_ws hne hws]
  exact jsToLower_startsWith hlo (rtrimJs_startsWith hne hws)

/-! ## Claim C1 -/

/-- Claim C1 counterexample: on the line `hysteria2://a` the global
classifier `isValidProxyUrl` accepts while the single-user filter
rejects, so the two paths disagree and their node counts differ on the
same fetched body. -/
theorem claim_c1_counterexample :
    isValidProxyUrl lineH2 = true ∧ userLineValid lineH2 = false ∧
    (syncSubscription {} (Except.ok ⟨200, lineH2⟩) nowT).2.nodeCount = some 1 ∧
    (syncUserSubscription {} userAda baseX (Except.ok ⟨200, lineH2⟩) nowT 0).2.nodeCount
      = some 0 := by
  decide

/-- Claim C1 (amended): the single-user filter is strictly narrower than
the Proxy-Line Classifier — every line it accepts (a literal, untrimmed,
lowercase `vless://`/`vmess://`/`trojan://`/`ss://`/`ssr://` prefix) is
also accepted by `isValidProxyUrl`, but not conversely. -/
theorem claim_c1_amended (line : Str) (h : userLineValid line = true) :
    isValidProxyUrl line = true := by
  unfold userLineValid at h
  simp only [Bool.or_eq_true] at h
  rcases h with (((h | h) | h) | h) | h
  all_goals (
    have h2 := trimLower_startsWith (by decide) (by decide) (by decide) h;
    simp [isValidProxyUrl, h2])

/-- Claim C1 witness: the amended inclusion at the line `vless://x`. -/
theorem claim_c1_witness :
    userLineValid lineVlessX = true ∧ isValidProxyUrl lineVlessX = true :=
  ⟨by decide, claim_c1_amended lineVlessX (by decide)⟩

/-! ## Claim C2 -/

/-- Claim C2 counterexample: `getProtocolType` sends vmess, ss and ssr
lines to `other`, and a batch of one line of each stores the protocol
histogram `{ vless := 0, trojan := 0, other := 3 }` — there are no
dedicated vmess/shadowsocks/ssr counts. -/
theorem claim_c2_counterexample :
    getProtocolType lineVm = ProtocolType.other ∧
    getProtocolType lineSs = ProtocolType.other ∧
    getProtocolType lineSsr = ProtocolType.other ∧
    ((syncSubscription {} (Except.ok ⟨200, bodyVmess⟩) nowT).1.syncResult.map
      (fun r => r.protocols)) = some ⟨0, 0, 3⟩ := by
  decide

/-- Claim C2 (amended): the statistics classification recognizes only
vless and trojan as dedicated categories; vmess, ss and ssr lines (like
every other scheme) are bucketed as `other`. -/
theorem claim_c2_amended (line : Str) :
    (startsWithStr (jsToLower (jsTrim line)) preVless = true →
      getProtocolType line = ProtocolType.vless) ∧
    (startsWithStr (jsToLower (jsTrim line)) preVless = false →
      startsWithStr (jsToLower (jsTrim line)) preTrojan = true →
      getProtocolType line = ProtocolType.trojan) ∧
    ((startsWithStr (jsToLower (jsTrim line)) preVmess = true ∨
      startsWithStr (jsToLower (jsTrim line)) preSs = true ∨
      startsWithStr (jsToLower (jsTrim line)) preSsr = true) →
      getProtocolType line = ProtocolType.other) := by
  refine ⟨fun h => by simp [getProtocolType, h], fun h1 h2 => by simp [getProtocolType, h1, h2], ?_⟩
  intro h
  have hv : startsWithStr (jsToLower (jsTrim line)) preVless = false := by
    cases hv : startsWithStr (jsToLower (jsTrim line)) preVless with
    | false => rfl
    | true =>
      exfalso
      rcases h with h | h | h
      · exact absurd (startsWithStr_of_prefix_le hv h (by decide)) (by decide)
      · exact absurd (startsWithStr_of_prefix_le h hv (by decide)) (by decide)
      · exact absurd (startsWithStr_of_prefix_le h hv (by decide)) (by decide)
  have ht : startsWithStr (jsToLower (jsTrim line)) preTrojan = false := by
    cases ht : startsWithStr (jsToLower (jsTrim line)) preTrojan with
    | false => rfl
    | true =>
      exfalso
      rcases h with h | h | h
      · exact absurd (startsWithStr_of_prefix_le h ht (by decide)) (by decide)
      · exact absurd (startsWithStr_of_prefix_le h ht (by decide)) (by decide)
      · exact absurd (startsWithStr_of_prefix_le h ht (by decide)) (by decide)
  simp [getProtocolType, hv, ht]

/-- Claim C2 witness: the amended classification evaluated on a vmess
line and on a vless line. -/
theorem claim_c2_witness :
    getProtocolType lineVm = ProtocolType.other ∧
    getProtocolType lineVlessX = ProtocolType.vless :=
  ⟨(claim_c2_amended lineVm).2.2 (Or.inl (by decide)),
   (claim_c2_amended lineVlessX).1 (by decide)⟩

/-! ## Claim C4 -/

/-- Claim C4: a non-2xx upstream status makes the global sync return a
structured failure whose error message carries the status code, append a
failure log entry, and leave the stored `sync:result` untouched — no
exception escapes (the embedding returns a value on this path). -/
theorem claim_c4 (store : Store) (status : ℕ) (body : Str) (now : Str)
    (h : responseOk status = false) :
    (syncSubscription store (Except.ok ⟨status, body⟩) now).2.success = false ∧
    (syncSubscription store (Except.ok ⟨status, body⟩) now).2.error
      = some (httpErrorMessage status) ∧
    (Nat.toDigits 10 status <:+: httpErrorMessage status) ∧
    (syncSubscription store (Except.ok ⟨status, body⟩) now).1.syncResult
      = store.syncResult ∧
    (syncSubscription store (Except.ok ⟨status, body⟩) now).1.syncLogs
      = logSyncStep store.syncLogs ⟨now, false, none, some (httpErrorMessage status)⟩ := by
  have hs : syncSubscription store (Except.ok ⟨status, body⟩) now =
      ({ store with
          syncLogs := logSyncStep store.syncLogs
            ⟨now, false, none, some (httpErrorMessage status)⟩ },
       { success := false, error := some (httpErrorMessage status) }) := by
    unfold syncSubscription
    simp [h]
  rw [hs]
  exact ⟨rfl, rfl,
    ⟨"Sub-Store 返回 ".toList, "，可能实例维护".toList, by simp [httpErrorMessage]⟩,
    rfl, rfl⟩

/-- Claim C4 witness: a 503 response against a store holding a previous
result leaves that result in place and reports failure. -/
theorem claim_c4_witness :
    responseOk 503 = false ∧
    (syncSubscription store503 (Except.ok ⟨503, []⟩) nowT).1.syncResult
      = some storedResult ∧
    (syncSubscription store503 (Except.ok ⟨503, []⟩) nowT).2.success = false := by
  refine ⟨by decide, ?_, (claim_c4 store503 503 [] nowT (by decide)).1⟩
  have h := (claim_c4 store503 503 [] nowT (by decide)).2.2.2.1
  rw [h]
  rfl

/-! ## Claim C7 -/

/-- Claim C7: the sync log is a newest-first bounded buffer — after any
append the stored list has length at most 10 with the new entry first,
and appending to a full buffer of 10 keeps the newest 10, dropping the
oldest. -/
theorem claim_c7 (logs : List SyncLog) (entry : SyncLog) :
    (logSyncStep logs entry).length ≤ 10 ∧
    (logSyncStep logs entry).head? = some entry ∧
    (logs.length = 10 → logSyncStep logs entry = entry :: logs.take 9) := by
  unfold logSyncStep
  by_cases h : (entry :: logs).length > 10
  · simp only [h, if_pos]
    refine ⟨List.length_take_le 10 _, ?_, fun _ => ?_⟩
    · rw [List.take_succ_cons]
      rfl
    · rw [List.take_succ_cons]
  · simp only [h, if_neg, not_false_iff]
    refine ⟨?_, rfl, fun h10 => ?_⟩
    · simp only [List.length_cons] at h ⊢
      omega
    · exfalso
      simp only [List.length_cons, h10] at h
      omega

/-- Claim C7 witness: appending an eleventh entry to ten stored entries
keeps exactly ten, newest first. -/
theorem claim_c7_witness :
    logsTen.length = 10 ∧
    logSyncStep logsTen entryNew = entryNew :: logsTen.take 9 :=
  ⟨by decide, (claim_c7 logsTen entryNew).2.2 (by decide)⟩

/-! ## Claim C3 -/

theorem syncUser_preserves_autoSync (store : Store) (user : User) (baseUrl : Str)
    (fetch : Except Str HttpResponse) (now : Str) (nowMs : ℕ) :
    (syncUserSubscription store user baseUrl fetch now nowMs).1.autoSyncConfig
      = store.autoSyncConfig := by
  unfold syncUserSubscription storeSetUser
  dsimp only
  repeat' split
  all_goals rfl

theorem syncUsersLoop_preserves_autoSync (baseUrl : Str)
    (fetchOf : Str → Except Str HttpResponse) (now : Str) (nowMs : ℕ) :
    ∀ (keys : List Str) (store : Store) (acc : BulkCounters),
    (syncUsersLoop baseUrl fetchOf now nowMs store acc keys).1.autoSyncConfig
      = store.autoSyncConfig := by
  intro keys
  induction keys with
  | nil => intro store acc; rfl
  | cons key rest ih =>
    intro store acc
    unfold syncUsersLoop
    cases hl : lookupUser store key with
    | none => simp only [hl]; exact ih store acc
    | some user =>
      simp only [hl]
      by_cases hb : user.subscriptionConfig.isSome
      · simp only [hb, if_pos]
        rcases hsu : syncUserSubscription store user baseUrl (fetchOf key) now nowMs
          with ⟨st2, res⟩
        have h2 := syncUser_preserves_autoSync store user baseUrl (fetchOf key) now nowMs
        rw [hsu] at h2
        rw [ih]
        exact h2
      · simp only [hb, if_neg, not_false_iff]
        exact ih store acc

/-- Claim C3 counterexample: a bulk run with a resolvable base URL but no
previously stored auto-sync configuration record writes no "last
scheduled sync" timestamp at all — the record stays absent. -/
theorem claim_c3_counterexample :
    (resolvedBaseUrl storeNoAuto []).isEmpty = false ∧
    storeNoAuto.autoSyncConfig = none ∧
    (syncAllUsers storeNoAuto [] failFetch nowT 0).1.autoSyncConfig = none := by
  decide

/-- Claim C3 (amended): when the base URL resolves AND an auto-sync
configuration record is already stored, every bulk run stamps its
`lastScheduledSync` with the current time, for every combination of
per-user outcomes; with no stored record, nothing is written. -/
theorem claim_c3_amended (store : Store) (envBase : Str)
    (fetchOf : Str → Except Str HttpResponse) (now : Str) (nowMs : ℕ)
    (c : AutoSyncConfig)
    (hbase : (resolvedBaseUrl store envBase).isEmpty = false)
    (hcfg : store.autoSyncConfig = some c) :
    (syncAllUsers store envBase fetchOf now nowMs).1.autoSyncConfig
      = some { c with lastScheduledSync := some now } := by
  unfold syncAllUsers
  simp only [hbase, Bool.false_eq_true, if_false]
  rcases hl : syncUsersLoop (resolvedBaseUrl store envBase) fetchOf now nowMs store {}
      ((store.users.map (fun kv => kv.1)).filter
        (fun k => startsWithStr k ("user:".toList)))
    with ⟨st2, acc⟩
  have h2 := syncUsersLoop_preserves_autoSync (resolvedBaseUrl store envBase)
    fetchOf now nowMs
    ((store.users.map (fun kv => kv.1)).filter
      (fun k => startsWithStr k ("user:".toList))) store {}
  rw [hl] at h2
  have h3 : st2.autoSyncConfig = some c := by rw [← hcfg]; exact h2
  simp only [hl, h3]

/-- Claim C3 witness: the amended statement on a store holding an
auto-sync configuration, with a failing fetch for every user. -/
theorem claim_c3_witness :
    storeWithAuto.autoSyncConfig = some cfgAuto ∧
    (syncAllUsers storeWithAuto [] failFetch nowT 0).1.autoSyncConfig
      = some { cfgAuto with lastScheduledSync := some nowT } :=
  ⟨by decide, claim_c3_amended storeWithAuto [] failFetch nowT 0 cfgAuto
    (by decide) (by decide)⟩

/-! ## Claim C10 -/

theorem find_setUserEntry (l : List (Str × User)) (k : Str) (u : User) :
    (setUserEntry l k u).find? (fun kv => kv.1 = k) = some (k, u) := by
  induction l with
  | nil => simp [setUserEntry, List.find?]
  | cons kv rest ih =>
    unfold setUserEntry
    by_cases hk : kv.1 = k
    · simp [hk, List.find?]
    · simp only [hk, if_neg, not_false_iff]
      rw [List.find?_cons_of_neg]
      · exact ih
      · simp [hk]

theorem lookup_storeSetUser (store : Store) (k : Str) (u : User) :
    lookupUser (storeSetUser store k u) k = some u := by
  unfold lookupUser storeSetUser
  simp [find_setUserEntry]

/-- Claim C10: whenever a single-user sync succeeds, the user record it
stores carries `lastSyncResult.totalRemainGB = null` — the per-user path
never extracts traffic information, whatever the fetched lines contain. -/
theorem claim_c10 (store : Store) (user : User) (baseUrl : Str)
    (fetch : Except Str HttpResponse) (now : Str) (nowMs : ℕ)
    (h : (syncUserSubscription store user baseUrl fetch now nowMs).2.success = true) :
    ∃ u', lookupUser (syncUserSubscription store user baseUrl fetch now nowMs).1
        (userKeyOf user) = some u' ∧
      ∃ r, u'.lastSyncResult = some r ∧ r.totalRemainGB = none := by
  unfold syncUserSubscription at h ⊢
  cases hc : user.subscriptionConfig with
  | none => simp [hc] at h
  | some cfg =>
    simp only [hc] at h ⊢
    cases fetch with
    | error m => simp at h
    | ok resp =>
      cases hr : responseOk resp.status with
      | false => simp [hr] at h
      | true =>
        simp only [hr, Bool.not_true, Bool.false_eq_true, if_false] at h ⊢
        cases hf : ((pipelineLines resp.body).filter userLineValid).foldlM
            (userExpireStep nowMs) (none : Option Str) with
        | error m => simp [hf] at h
        | ok earliest =>
          simp only [hf] at h ⊢
          exact ⟨_, lookup_storeSetUser _ _ _, _, rfl, rfl⟩

/-- Claim C10 witness: a successful concrete per-user sync stores a
`lastSyncResult` with a null traffic total. -/
theorem claim_c10_witness :
    (syncUserSubscription {} userAda baseX (Except.ok ⟨200, lineVlessX⟩) nowT 0).2.success
      = true ∧
    ∃ u', lookupUser
        (syncUserSubscription {} userAda baseX (Except.ok ⟨200, lineVlessX⟩) nowT 0).1
        (userKeyOf userAda) = some u' ∧
      ∃ r, u'.lastSyncResult = some r ∧ r.totalRemainGB = none :=
  ⟨by decide, claim_c10 {} userAda baseX (Except.ok ⟨200, lineVlessX⟩) nowT 0 (by decide)⟩

/-! ## Digit-capture bounds and the shape of parseNodeName -/

theorem takeUpTo_length_le (n : ℕ) (p : Char → Bool) (s : Str) :
    (takeUpTo n p s).1.length ≤ n := by
  induction n generalizing s with
  | zero => simp [takeUpTo]
  | succ n ih =>
    cases s with
    | nil => simp [takeUpTo]
    | cons c s' =>
      unfold takeUpTo
      by_cases h : p c
      · simpa [h] using ih s'
      · simp [h]

theorem takeUpTo_all (n : ℕ) (p : Char → Bool) (s : Str) :
    ∀ c ∈ (takeUpTo n p s).1, p c = true := by
  induction n generalizing s with
  | zero => simp [takeUpTo]
  | succ n ih =>
    cases s with
    | nil => simp [takeUpTo]
    | cons c s' =>
      unfold takeUpTo
      by_cases h : p c
      · simp only [h, if_pos]
        intro x hx
        rcases List.mem_cons.mp hx with hx | hx
        · rwa [hx]
        · exact ih s' x hx
      · simp [h]

theorem firstMatchAux_some {α : Type} (m : Str → Option α) (s : Str) (r : α)
    (h : firstMatchAux m s = some r) : ∃ t, m t = some r := by
  induction s with
  | nil => exact ⟨[], h⟩
  | cons c rest ih =>
    unfold firstMatchAux at h
    cases hm : m (c :: rest) with
    | some x =>
      rw [hm] at h
      exact ⟨c :: rest, by rw [hm]; exact h⟩
    | none =>
      rw [hm] at h
      exact ih h

theorem expUnixAt_digits {s ds : Str} (h : expUnixAt s = some ds) :
    ds.length ≤ 13 ∧ ∀ c ∈ ds, isDigitCh c = true := by
  unfold expUnixAt at h
  split at h
  · split at h
    · dsimp only at h
      split at h
      · injection h with h
        subst h
        exact ⟨takeUpTo_length_le 13 isDigitCh _, takeUpTo_all 13 isDigitCh _⟩
      · exact absurd h (by simp)
    · exact absurd h (by simp)
  · exact absurd h (by simp)

theorem natOfDigits_foldl_lt (ds : Str) (h : ∀ c ∈ ds, isDigitCh c = true) :
    ∀ acc : ℕ, ds.foldl (fun acc c => acc * 10 + (c.toNat - 48)) acc
      < (acc + 1) * 10 ^ ds.length := by
  induction ds with
  | nil => intro acc; simp
  | cons c tl ih =>
    intro acc
    have hc : c.toNat - 48 ≤ 9 := by
      have hd := h c (List.mem_cons_self c tl)
      unfold isDigitCh at hd
      simp only [Bool.and_eq_true, decide_eq_true_eq] at hd
      omega
    have h1 := ih (fun x hx => h x (List.mem_cons_of_mem c hx)) (acc * 10 + (c.toNat - 48))
    calc (c :: tl).foldl (fun acc c => acc * 10 + (c.toNat - 48)) acc
        = tl.foldl (fun acc c => acc * 10 + (c.toNat - 48)) (acc * 10 + (c.toNat - 48)) := rfl
      _ < (acc * 10 + (c.toNat - 48) + 1) * 10 ^ tl.length := h1
      _ ≤ ((acc + 1) * 10) * 10 ^ tl.length := by
          have : acc * 10 + (c.toNat - 48) + 1 ≤ (acc + 1) * 10 := by omega
          exact Nat.mul_le_mul_right _ this
      _ = (acc + 1) * 10 ^ (c :: tl).length := by
          rw [List.length_cons, pow_succ]
          ring

theorem natOfDigits_lt (ds : Str) (h : ∀ c ∈ ds, isDigitCh c = true) :
    natOfDigits ds < 10 ^ ds.length := by
  have := natOfDigits_foldl_lt ds h 0
  simpa [natOfDigits] using this

theorem msOfTimestamp_le {ds : Str} (hlen : ds.length ≤ 13)
    (hdig : ∀ c ∈ ds, isDigitCh c = true) :
    msOfTimestamp (natOfDigits ds) ≤ maxJsTimeMs := by
  have h1 : natOfDigits ds < 10 ^ 13 :=
    lt_of_lt_of_le (natOfDigits_lt ds hdig)
      (Nat.pow_le_pow_right (by norm_num) hlen)
  have h13 : (10 : ℕ) ^ 13 = 10000000000000 := by norm_num
  rw [h13] at h1
  unfold msOfTimestamp maxJsTimeMs
  by_cases h : natOfDigits ds > 9999999999
  · simp only [h, if_pos]
    omega
  · simp only [h, if_neg, not_false_iff]
    omega

theorem toISODateOfMs_ok {ms : ℕ} (h : ms ≤ maxJsTimeMs) :
    toISODateOfMs ms = Except.ok (utcDateChars ms) := by
  unfold toISODateOfMs
  rw [if_neg]
  omega

theorem parseNodeName_eq (name : Str) :
    parseNodeName name = Except.ok
      { name := name
        expireDate := parsedExpire name
        remainTrafficGB := parsedTraffic name } := by
  unfold parseNodeName parsedExpire parsedTraffic
  cases h1 : firstMatch expireAt name with
  | some d => rfl
  | none =>
    cases h2 : firstMatch expUnixAt name with
    | some ds =>
      obtain ⟨t, ht⟩ := firstMatchAux_some _ _ _ h2
      obtain ⟨hlen, hdig⟩ := expUnixAt_digits ht
      dsimp only
      rw [toISODateOfMs_ok (msOfTimestamp_le hlen hdig)]
      rfl
    | none => rfl

theorem parseNodeNameD_eq (name : Str) :
    parseNodeNameD name =
      { name := name
        expireDate := parsedExpire name
        remainTrafficGB := parsedTraffic name } := by
  unfold parseNodeNameD
  rw [parseNodeName_eq]

/-! ## Claim C6 -/

/-- Claim C6: the Node-Name Parser is total — on every input string it
returns a `ParsedNodeInfo` carrying the original name, with each
optional field absent when its pattern does not match; the one throwing
statement in its body (`toISOString`) is unreachable because a captured
timestamp has at most 13 digits. -/
theorem claim_c6 (name : Str) :
    ∃ r, parseNodeName name = Except.ok r ∧ r.name = name ∧
      (firstMatch expireAt name = none → firstMatch expUnixAt name = none →
        r.expireDate = none) ∧
      (firstMatch trafficAt name = none → r.remainTrafficGB = none) := by
  refine ⟨_, parseNodeName_eq name, rfl, ?_, ?_⟩
  · intro h1 h2
    simp [parsedExpire, h1, h2]
  · intro h3
    simp [parsedTraffic, h3]

/-- Claim C6 witness: the parser evaluated on the empty string and on a
marker-free label. -/
theorem claim_c6_witness :
    parseNodeName [] = Except.ok { name := [] } ∧
    (parseNodeName ("abc".toList)).toOption.map (fun r => r.expireDate)
      = some none := by
  obtain ⟨r, hr, hn, he, ht⟩ := claim_c6 []
  constructor
  · rw [hr]
    have he' := he (by decide) (by decide)
    have ht' := ht (by decide)
    cases r with
    | mk nm ed tr =>
      simp only at hn he' ht'
      rw [hn, he', ht']
  · obtain ⟨r2, hr2, hn2, he2, ht2⟩ := claim_c6 ("abc".toList)
    rw [hr2]
    have h5 := he2 (by decide) (by decide)
    show some r2.expireDate = some none
    rw [h5]

/-! ## Claim C8 -/

/-- Claim C8 counterexample: on `exp:09999999999` the capture has 11
digits (more than 10), yet its value 9999999999 is not above the
magnitude threshold, so the code interprets it as seconds and reports
2286-11-20 — not the 1970-04-26 a milliseconds reading (as the claim's
digit-count rule requires) would give. -/
theorem claim_c8_counterexample :
    digitsExp11.length = 11 ∧
    natOfDigits digitsExp11 = 9999999999 ∧
    firstMatch expireAt nameExp11 = none ∧
    firstMatch expUnixAt nameExp11 = some digitsExp11 ∧
    (parseNodeName nameExp11).toOption.map (fun r => r.expireDate)
      = some (some ("2286-11-20".toList)) ∧
    utcDateChars 9999999999 = "1970-04-26".toList := by
  decide

/-- Claim C8 (amended): with no localized expire marker and an
`exp:<digits>` capture present, the parser disambiguates seconds vs
milliseconds by magnitude — values above 9999999999 are milliseconds,
values up to it are seconds (this equals the 10-digit/more-digit rule
only when the capture has no leading zeros) — and sets `expireDate` to
the UTC calendar date of the chosen millisecond value. -/
theorem claim_c8_amended (name ds : Str)
    (hno : firstMatch expireAt name = none)
    (hun : firstMatch expUnixAt name = some ds) :
    ∃ r, parseNodeName name = Except.ok r ∧
      r.expireDate = some (utcDateChars (msOfTimestamp (natOfDigits ds))) := by
  refine ⟨_, parseNodeName_eq name, ?_⟩
  simp [parsedExpire, hno, hun]

/-- Claim C8 witness: the amended rule on `exp:1700000000` (10 digits,
seconds), which resolves to 2023-11-14. -/
theorem claim_c8_witness :
    firstMatch expireAt nameExp10 = none ∧
    firstMatch expUnixAt nameExp10 = some digitsExp10 ∧
    ∃ r, parseNodeName nameExp10 = Except.ok r ∧
      r.expireDate = some ("2023-11-14".toList) := by
  refine ⟨by decide, by decide, ?_⟩
  obtain ⟨r, hr, he⟩ := claim_c8_amended nameExp10 digitsExp10 (by decide) (by decide)
  refine ⟨r, hr, ?_⟩
  rw [he]
  decide

/-! ## Structure of one classification-loop step -/

theorem applyParsed_validLines (st : AggState) (p : ParsedNodeInfo) :
    (applyParsed st p).validLines = st.validLines := by
  unfold applyParsed
  cases p.expireDate <;> cases p.remainTrafficGB <;> rfl

theorem applyParsed_protocols (st : AggState) (p : ParsedNodeInfo) :
    (applyParsed st p).protocols = st.protocols := by
  unfold applyParsed
  cases p.expireDate <;> cases p.remainTrafficGB <;> rfl

theorem applyParsed_expireDates (st : AggState) (p : ParsedNodeInfo) :
    (applyParsed st p).expireDates = st.expireDates ++ p.expireDate.toList := by
  unfold applyParsed
  cases p.expireDate <;> cases p.remainTrafficGB <;> simp

theorem applyParsed_total (st : AggState) (p : ParsedNodeInfo) :
    (applyParsed st p).totalTrafficGB = st.totalTrafficGB + (p.remainTrafficGB.getD 0) := by
  unfold applyParsed
  cases p.expireDate <;> cases p.remainTrafficGB <;> simp

theorem applyParsed_hasT (st : AggState) (p : ParsedNodeInfo) :
    (applyParsed st p).hasTrafficInfo = (st.hasTrafficInfo || p.remainTrafficGB.isSome) := by
  unfold applyParsed
  cases p.expireDate <;> cases p.remainTrafficGB <;> simp

theorem processLineT_validLines (st : AggState) (line : Str) :
    (processLineT st line).validLines =
      st.validLines ++ (if isValidProxyUrl line then [jsTrim line] else []) := by
  unfold processLineT
  by_cases h : isValidProxyUrl line
  · simp only [h, if_pos]
    by_cases hn : (extractNodeNameFromUrl line).isEmpty
    · simp [hn, recordValid]
    · simp [hn, applyParsed_validLines, recordValid]
  · simp [h]

theorem processLineT_protocols (st : AggState) (line : Str) :
    (processLineT st line).protocols =
      (if isValidProxyUrl line then bumpProtocol st.protocols (getProtocolType line)
       else st.protocols) := by
  unfold processLineT
  by_cases h : isValidProxyUrl line
  · simp only [h, if_pos]
    by_cases hn : (extractNodeNameFromUrl line).isEmpty
    · simp [hn, recordValid]
    · simp [hn, applyParsed_protocols, recordValid]
  · simp [h]

theorem processLineT_expireDates (st : AggState) (line : Str) :
    (processLineT st line).expireDates = st.expireDates ++ (lineExpire line).toList := by
  unfold processLineT lineExpire
  by_cases h : isValidProxyUrl line
  · simp only [h, if_pos]
    by_cases hn : (extractNodeNameFromUrl line).isEmpty
    · simp [hn, recordValid]
    · simp [hn, applyParsed_expireDates, recordValid]
  · simp [h]

theorem processLineT_total (st : AggState) (line : Str) :
    (processLineT st line).totalTrafficGB =
      st.totalTrafficGB + ((lineTraffic line).getD 0) := by
  unfold processLineT lineTraffic
  by_cases h : isValidProxyUrl line
  · simp only [h, if_pos]
    by_cases hn : (extractNodeNameFromUrl line).isEmpty
    · simp [hn, recordValid]
    · simp [hn, applyParsed_total, recordValid]
  · simp [h]

theorem processLineT_hasT (st : AggState) (line : Str) :
    (processLineT st line).hasTrafficInfo =
      (st.hasTrafficInfo || (lineTraffic line).isSome) := by
  unfold processLineT lineTraffic
  by_cases h : isValidProxyUrl line
  · simp only [h, if_pos]
    by_cases hn : (extractNodeNameFromUrl line).isEmpty
    · simp [hn, recordValid]
    · simp [hn, applyParsed_hasT, recordValid]
  · simp [h]

/-! ## Closed forms of the whole loop -/

theorem foldl_validLines (l : List Str) :
    ∀ st : AggState, (l.foldl processLineT st).validLines
      = st.validLines ++ (l.filter isValidProxyUrl).map jsTrim := by
  induction l with
  | nil => intro st; simp
  | cons a tl ih =>
    intro st
    rw [List.foldl_cons, ih, processLineT_validLines, List.filter_cons]
    by_cases h : isValidProxyUrl a <;> simp [h]

theorem foldl_protocols_vless (l : List Str) :
    ∀ st : AggState, (l.foldl processLineT st).protocols.vless
      = st.protocols.vless + l.countP
          (fun a => isValidProxyUrl a && decide (getProtocolType a = ProtocolType.vless)) := by
  induction l with
  | nil => intro st; simp
  | cons a tl ih =>
    intro st
    rw [List.foldl_cons, ih, processLineT_protocols, List.countP_cons]
    by_cases h : isValidProxyUrl a
    · cases hp : getProtocolType a <;> simp [h, hp, bumpProtocol] <;> omega
    · simp [h]

theorem foldl_protocols_trojan (l : List Str) :
    ∀ st : AggState, (l.foldl processLineT st).protocols.trojan
      = st.protocols.trojan + l.countP
          (fun a => isValidProxyUrl a && decide (getProtocolType a = ProtocolType.trojan)) := by
  induction l with
  | nil => intro st; simp
  | cons a tl ih =>
    intro st
    rw [List.foldl_cons, ih, processLineT_protocols, List.countP_cons]
    by_cases h : isValidProxyUrl a
    · cases hp : getProtocolType a <;> simp [h, hp, bumpProtocol] <;> omega
    · simp [h]

theorem foldl_protocols_other (l : List Str) :
    ∀ st : AggState, (l.foldl processLineT st).protocols.other
      = st.protocols.other + l.countP
          (fun a => isValidProxyUrl a && decide (getProtocolType a = ProtocolType.other)) := by
  induction l with
  | nil => intro st; simp
  | cons a tl ih =>
    intro st
    rw [List.foldl_cons, ih, processLineT_protocols, List.countP_cons]
    by_cases h : isValidProxyUrl a
    · cases hp : getProtocolType a <;> simp [h, hp, bumpProtocol] <;> omega
    · simp [h]

theorem foldl_expireDates (l : List Str) :
    ∀ st : AggState, (l.foldl processLineT st).expireDates
      = st.expireDates ++ l.filterMap lineExpire := by
  induction l with
  | nil => intro st; simp
  | cons a tl ih =>
    intro st
    rw [List.foldl_cons, ih, processLineT_expireDates, List.filterMap_cons]
    cases h : lineExpire a <;> simp [h]

theorem foldl_total (l : List Str) :
    ∀ st : AggState, (l.foldl processLineT st).totalTrafficGB
      = st.totalTrafficGB + (l.filterMap lineTraffic).sum := by
  induction l with
  | nil => intro st; simp
  | cons a tl ih =>
    intro st
    rw [List.foldl_cons, ih, processLineT_total, List.filterMap_cons]
    cases h : lineTraffic a
    · simp [h]
    · simp only [h, Option.getD_some, List.sum_cons]
      rw [add_assoc]

theorem foldl_hasT (l : List Str) :
    ∀ st : AggState, (l.foldl processLineT st).hasTrafficInfo
      = (st.hasTrafficInfo || l.any (fun a => (lineTraffic a).isSome)) := by
  induction l with
  | nil => intro st; simp
  | cons a tl ih =>
    intro st
    rw [List.foldl_cons, ih, processLineT_hasT, List.any_cons]
    cases h : (lineTraffic a).isSome <;> simp [h, Bool.or_assoc]

/-! ## The Except layer of the loop never fires -/

theorem processLineE_eq (st : AggState) (line : Str) :
    processLineE st line = Except.ok (processLineT st line) := by
  unfold processLineE processLineT
  by_cases h : isValidProxyUrl line
  · simp only [h, if_pos]
    by_cases hn : (extractNodeNameFromUrl line).isEmpty
    · simp [hn]
    · simp only [hn, Bool.false_eq_true, if_false]
      rw [parseNodeName_eq, parseNodeNameD_eq]
      rfl
  · simp [h]

theorem foldlM_processLineE (l : List Str) :
    ∀ st : AggState, l.foldlM processLineE st = Except.ok (l.foldl processLineT st) := by
  induction l with
  | nil => intro st; rfl
  | cons a tl ih =>
    intro st
    rw [List.foldlM_cons, processLineE_eq]
    exact ih (processLineT st a)

/-! ## The lexicographic order underlying the date sort -/

theorem lexLe_cons_iff (x y : Char) (as bs : Str) :
    lexLe (x :: as) (y :: bs) = true ↔ x < y ∨ (x = y ∧ lexLe as bs = true) := by
  have hdef : lexLe (x :: as) (y :: bs)
      = (if x < y then true else if y < x then false else lexLe as bs) := rfl
  rw [hdef]
  split_ifs with h1 h2
  · simp [h1]
  · apply iff_of_false (by simp)
    rintro (hxy | ⟨rfl, _⟩)
    · exact absurd hxy h1
    · exact lt_irrefl _ h2
  · have hxy : x = y := le_antisymm (not_lt.mp h2) (not_lt.mp h1)
    subst hxy
    simp [lt_irrefl]

theorem lexLe_refl (a : Str) : lexLe a a = true := by
  induction a with
  | nil => rfl
  | cons x as ih => exact (lexLe_cons_iff x x as as).mpr (Or.inr ⟨rfl, ih⟩)

theorem lexLe_total (a b : Str) : lexLe a b = true ∨ lexLe b a = true := by
  induction a generalizing b with
  | nil => exact Or.inl rfl
  | cons x as ih =>
    cases b with
    | nil => exact Or.inr rfl
    | cons y bs =>
      rcases lt_trichotomy x y with h | h | h
      · exact Or.inl ((lexLe_cons_iff _ _ _ _).mpr (Or.inl h))
      · rcases ih bs with h2 | h2
        · exact Or.inl ((lexLe_cons_iff _ _ _ _).mpr (Or.inr ⟨h, h2⟩))
        · exact Or.inr ((lexLe_cons_iff _ _ _ _).mpr (Or.inr ⟨h.symm, h2⟩))
      · exact Or.inr ((lexLe_cons_iff _ _ _ _).mpr (Or.inl h))

theorem lexLe_trans {a b c : Str} (h1 : lexLe a b = true) (h2 : lexLe b c = true) :
    lexLe a c = true := by
  induction a generalizing b c with
  | nil => cases c <;> rfl
  | cons x as ih =>
    cases b with
    | nil => exact absurd h1 (by simp [lexLe])
    | cons y bs =>
      cases c with
      | nil => exact absurd h2 (by simp [lexLe])
      | cons z cs =>
        rcases (lexLe_cons_iff _ _ _ _).mp h1 with hx | ⟨rfl, hr1⟩
        · rcases (lexLe_cons_iff _ _ _ _).mp h2 with hy | ⟨rfl, _⟩
          · exact (lexLe_cons_iff _ _ _ _).mpr (Or.inl (hx.trans hy))
          · exact (lexLe_cons_iff _ _ _ _).mpr (Or.inl hx)
        · rcases (lexLe_cons_iff _ _ _ _).mp h2 with hy | ⟨rfl, hr2⟩
          · exact (lexLe_cons_iff _ _ _ _).mpr (Or.inl hy)
          · exact (lexLe_cons_iff _ _ _ _).mpr (Or.inr ⟨rfl, ih hr1 hr2⟩)

theorem lexLe_antisymm {a b : Str} (h1 : lexLe a b = true) (h2 : lexLe b a = true) :
    a = b := by
  induction a generalizing b with
  | nil =>
    cases b with
    | nil => rfl
    | cons y bs => exact absurd h2 (by simp [lexLe])
  | cons x as ih =>
    cases b with
    | nil => exact absurd h1 (by simp [lexLe])
    | cons y bs =>
      rcases (lexLe_cons_iff _ _ _ _).mp h1 with hx | ⟨rfl, hr1⟩
      · rcases (lexLe_cons_iff _ _ _ _).mp h2 with hy | ⟨heq, _⟩
        · exact absurd (hx.trans hy) (lt_irrefl x)
        · exact absurd hx (heq ▸ lt_irrefl y)
      · rcases (lexLe_cons_iff _ _ _ _).mp h2 with hy | ⟨_, hr2⟩
        · exact absurd hy (lt_irrefl x)
        · rw [ih hr1 hr2]

instance : IsTotal Str rLex := ⟨lexLe_total⟩

instance : IsTrans Str rLex := ⟨fun _ _ _ => lexLe_trans⟩

instance : IsAntisymm Str rLex := ⟨fun _ _ => lexLe_antisymm⟩

theorem sortedDates_perm (ds : List Str) : (sortedDates ds).Perm ds :=
  List.perm_insertionSort rLex ds

theorem sortedDates_sorted (ds : List Str) : List.Sorted rLex (sortedDates ds) :=
  List.sorted_insertionSort rLex ds

theorem sortedDates_eq_of_perm {d1 d2 : List Str} (h : d1.Perm d2) :
    sortedDates d1 = sortedDates d2 :=
  List.eq_of_perm_of_sorted
    ((sortedDates_perm d1).trans (h.trans (sortedDates_perm d2).symm))
    (sortedDates_sorted d1) (sortedDates_sorted d2)

theorem perm_any_eq {α : Type} {l1 l2 : List α} (h : l1.Perm l2) (p : α → Bool) :
    l1.any p = l2.any p := by
  cases h1 : l1.any p <;> cases h2 : l2.any p <;> try rfl
  · rw [List.any_eq_true] at h2
    obtain ⟨a, ha, hp⟩ := h2
    have h3 := List.any_eq_true.mpr ⟨a, h.mem_iff.mpr ha, hp⟩
    rw [h1] at h3
    exact absurd h3 (by simp)
  · rw [List.any_eq_true] at h1
    obtain ⟨a, ha, hp⟩ := h1
    have h3 := List.any_eq_true.mpr ⟨a, h.mem_iff.mp ha, hp⟩
    rw [h2] at h3
    exact absurd h3 (by simp)

/-! ## Claim C5 -/

theorem syncSubscription_ok_syncResult (store : Store) (status : ℕ) (body now : Str)
    (h : responseOk status = true) :
    (syncSubscription store (Except.ok ⟨status, body⟩) now).1.syncResult = some
      { lastSync := now
        nodeCount := (aggregate (pipelineLines body)).validLines.length
        earliestExpire := earliestOf (aggregate (pipelineLines body))
        totalRemainGB := totalRemainOf (aggregate (pipelineLines body))
        rawLines := (aggregate (pipelineLines body)).validLines
        protocols := (aggregate (pipelineLines body)).protocols } := by
  unfold syncSubscription
  simp only [h, Bool.not_true, Bool.false_eq_true, if_false]
  rw [foldlM_processLineE]
  rfl

/-- Claim C5: on every successful global sync, the stored
`totalRemainGB` is absent exactly when no pipeline line contributed a
traffic match (never `0` for an empty contribution set), and otherwise
is the sum of all contributed values rounded to two decimals. -/
theorem claim_c5 (store : Store) (status : ℕ) (body now : Str)
    (h : responseOk status = true) :
    ∃ r, (syncSubscription store (Except.ok ⟨status, body⟩) now).1.syncResult = some r ∧
      r.totalRemainGB =
        (if (pipelineLines body).any (fun a => (lineTraffic a).isSome)
         then some (jsRound2 ((pipelineLines body).filterMap lineTraffic).sum)
         else none) := by
  refine ⟨_, syncSubscription_ok_syncResult store status body now h, ?_⟩
  show totalRemainOf (aggregate (pipelineLines body)) = _
  unfold totalRemainOf aggregate
  rw [foldl_hasT, foldl_total]
  show (if (false || _) = true then some (jsRound2 ((0 : JsNum) + _)) else none) = _
  rw [Bool.false_or, zero_add]

/-- Claim C5 witness: a successful sync over a traffic-free body stores
a null traffic total. -/
theorem claim_c5_witness :
    (pipelineLines lineH2).any (fun a => (lineTraffic a).isSome) = false ∧
    ∃ r, (syncSubscription {} (Except.ok ⟨200, lineH2⟩) nowT).1.syncResult = some r ∧
      r.totalRemainGB = none := by
  refine ⟨by decide, ?_⟩
  obtain ⟨r, hr, ht⟩ := claim_c5 {} 200 lineH2 nowT (by decide)
  refine ⟨r, hr, ?_⟩
  rw [ht]
  decide

/-! ## Claim C9 -/

theorem protocols_ext {p q : Protocols} (h1 : p.vless = q.vless)
    (h2 : p.trojan = q.trojan) (h3 : p.other = q.other) : p = q := by
  cases p
  cases q
  simp only [Protocols.mk.injEq]
  exact ⟨h1, h2, h3⟩

theorem int_log2_eq {q : ℚ} (n : ℤ) (h1 : (2:ℚ) ^ n ≤ q) (h2 : q < (2:ℚ) ^ (n + 1)) :
    Int.log 2 q = n := by
  have h0 : 0 < q := lt_of_lt_of_le (zpow_pos (by norm_num) n) h1
  refine le_antisymm ?_ ?_
  · by_contra hc
    push_neg at hc
    have h3 : (2:ℚ) ^ (n + 1) ≤ (2:ℚ) ^ (Int.log 2 q) := zpow_le_zpow_right₀ (by norm_num) hc
    have h4 : ((2:ℕ):ℚ) ^ (Int.log 2 q) ≤ q := Int.zpow_log_le_self one_lt_two h0
    push_cast at h4
    linarith
  · by_contra hc
    push_neg at hc
    have h3 : (2:ℚ) ^ (Int.log 2 q + 1) ≤ (2:ℚ) ^ n := zpow_le_zpow_right₀ (by norm_num) hc
    have h4 : q < ((2:ℕ):ℚ) ^ (Int.log 2 q + 1) := Int.lt_zpow_succ_log_self one_lt_two q
    push_cast at h4
    linarith

theorem lt_twoPow1024 {q : ℚ} (h : q ≤ 10 ^ 17) : q < (2:ℚ) ^ (1024:ℤ) := by
  have h2 : ((10:ℚ) ^ 17) < (2:ℚ) ^ (1024:ℤ) := by
    rw [show ((1024:ℤ)) = ((1024:ℕ):ℤ) from rfl, zpow_natCast]
    norm_num
  linarith

theorem log2_one : Int.log 2 (1:ℚ) = 0 := by
  apply int_log2_eq <;> norm_num

theorem log2_two : Int.log 2 (2:ℚ) = 1 := by
  apply int_log2_eq
  · norm_num
  · rw [show ((1:ℤ) + 1) = ((2:ℕ):ℤ) from rfl, zpow_natCast]
    norm_num

theorem log2_qBig (c : ℚ) (h0 : 0 ≤ c) (h2 : c ≤ 2) : Int.log 2 (qBig + c) = 53 := by
  apply int_log2_eq
  · rw [show ((53:ℤ)) = ((53:ℕ):ℤ) from rfl, zpow_natCast]
    unfold qBig
    norm_num
    linarith
  · rw [show ((53:ℤ) + 1) = ((54:ℕ):ℤ) from rfl, zpow_natCast]
    unfold qBig
    norm_num
    linarith

theorem f64Ulp_one : f64Ulp 1 = (2:ℚ) ^ (-52:ℤ) := by
  unfold f64Ulp
  rw [log2_one, show max ((0:ℤ) - 52) (-1074) = -52 from by decide]

theorem f64Ulp_two : f64Ulp 2 = (2:ℚ) ^ (-51:ℤ) := by
  unfold f64Ulp
  rw [log2_two, show max ((1:ℤ) - 52) (-1074) = -51 from by decide]

theorem f64Ulp_qBig (c : ℚ) (h0 : 0 ≤ c) (h2 : c ≤ 2) : f64Ulp (qBig + c) = 2 := by
  unfold f64Ulp
  rw [log2_qBig c h0 h2, show max ((53:ℤ) - 52) (-1074) = 1 from by decide, zpow_one]

theorem roundF64_exact {q : ℚ} (h0 : 0 < q) (hmax : q < (2:ℚ) ^ (1024:ℤ)) (k : ℤ)
    (hk : q = k * f64Ulp q) : roundF64 q = q := by
  have hu : (0:ℚ) < f64Ulp q := zpow_pos (by norm_num) _
  have hdiv : q / f64Ulp q = (k:ℚ) := by
    rw [div_eq_iff (ne_of_gt hu)]
    exact hk
  have hn : ⌊q / f64Ulp q⌋ = k := by rw [hdiv]; exact Int.floor_intCast k
  have hr : q - (k:ℚ) * f64Ulp q = 0 := sub_eq_zero.mpr hk
  unfold roundF64
  rw [if_neg (not_le.mpr h0), if_neg (not_le.mpr hmax), hn, hr]
  rw [if_pos (by linarith : 2 * (0:ℚ) < f64Ulp q)]
  exact hk.symm

theorem roundF64_tie_even {q : ℚ} (h0 : 0 < q) (hmax : q < (2:ℚ) ^ (1024:ℤ)) (k : ℤ)
    (hk : q = k * f64Ulp q + f64Ulp q / 2) (hev : k % 2 = 0) :
    roundF64 q = k * f64Ulp q := by
  have hu : (0:ℚ) < f64Ulp q := zpow_pos (by norm_num) _
  have hdiv : q / f64Ulp q = (k:ℚ) + 1/2 := by
    rw [div_eq_iff (ne_of_gt hu)]
    have hx : ((k:ℚ) + 1/2) * f64Ulp q = (k:ℚ) * f64Ulp q + f64Ulp q / 2 := by ring
    rw [hx]
    exact hk
  have hn : ⌊q / f64Ulp q⌋ = k := by
    rw [hdiv, Int.floor_eq_iff]
    constructor
    · linarith
    · push_cast
      linarith
  have hr : q - (k:ℚ) * f64Ulp q = f64Ulp q / 2 := by linarith [hk]
  unfold roundF64
  rw [if_neg (not_le.mpr h0), if_neg (not_le.mpr hmax), hn, hr]
  rw [if_neg (by linarith : ¬ 2 * (f64Ulp q / 2) < f64Ulp q)]
  rw [if_neg (by linarith : ¬ f64Ulp q < 2 * (f64Ulp q / 2))]
  rw [if_pos hev]

theorem roundF64_one : roundF64 1 = 1 := by
  apply roundF64_exact (by norm_num) (lt_twoPow1024 (by norm_num)) (2 ^ 52)
  rw [f64Ulp_one]
  have h1 : ((2 ^ 52 : ℤ) : ℚ) = (2:ℚ) ^ (52:ℤ) := by
    rw [show ((52:ℤ)) = ((52:ℕ):ℤ) from rfl, zpow_natCast]
    push_cast
    ring
  rw [h1, ← zpow_add₀ (by norm_num : (2:ℚ) ≠ 0)]
  norm_num

theorem roundF64_two : roundF64 2 = 2 := by
  apply roundF64_exact (by norm_num) (lt_twoPow1024 (by norm_num)) (2 ^ 52)
  rw [f64Ulp_two]
  have h1 : ((2 ^ 52 : ℤ) : ℚ) = (2:ℚ) ^ (52:ℤ) := by
    rw [show ((52:ℤ)) = ((52:ℕ):ℤ) from rfl, zpow_natCast]
    push_cast
    ring
  rw [h1, ← zpow_add₀ (by norm_num : (2:ℚ) ≠ 0)]
  norm_num

theorem roundF64_qBig : roundF64 qBig = qBig := by
  have hu : f64Ulp (qBig + 0) = 2 := f64Ulp_qBig 0 (by norm_num) (by norm_num)
  rw [add_zero] at hu
  apply roundF64_exact (by unfold qBig; norm_num)
    (lt_twoPow1024 (by unfold qBig; norm_num)) 5000000000000000
  rw [hu]
  unfold qBig
  norm_num

theorem roundF64_qBig_two : roundF64 (qBig + 2) = qBig + 2 := by
  have hu : f64Ulp (qBig + 2) = 2 := f64Ulp_qBig 2 (by norm_num) (by norm_num)
  apply roundF64_exact (by unfold qBig; norm_num)
    (lt_twoPow1024 (by unfold qBig; norm_num)) 5000000000000001
  rw [hu]
  unfold qBig
  norm_num

theorem roundF64_qBig_one : roundF64 (qBig + 1) = qBig := by
  have hu : f64Ulp (qBig + 1) = 2 := f64Ulp_qBig 1 (by norm_num) (by norm_num)
  have h := roundF64_tie_even (q := qBig + 1) (by unfold qBig; norm_num)
    (lt_twoPow1024 (by unfold qBig; norm_num)) 5000000000000000
    (by rw [hu]; unfold qBig; norm_num) (by decide)
  rw [h, hu]
  unfold qBig
  norm_num

theorem f64Sum_smallFirst : f64SumTraffic [1, 1, qBig] = qBig + 2 := by
  unfold f64SumTraffic
  rw [List.foldl_cons, List.foldl_cons, List.foldl_cons, List.foldl_nil]
  have e1 : f64Add 0 1 = 1 := by
    unfold f64Add
    rw [zero_add]
    exact roundF64_one
  have e2 : f64Add 1 1 = 2 := by
    unfold f64Add
    rw [show (1:ℚ) + 1 = 2 from by norm_num]
    exact roundF64_two
  have e3 : f64Add 2 qBig = qBig + 2 := by
    unfold f64Add
    rw [show (2:ℚ) + qBig = qBig + 2 from by ring]
    exact roundF64_qBig_two
  rw [e1, e2, e3]

theorem f64Sum_bigFirst : f64SumTraffic [qBig, 1, 1] = qBig := by
  unfold f64SumTraffic
  rw [List.foldl_cons, List.foldl_cons, List.foldl_cons, List.foldl_nil]
  have e1 : f64Add 0 qBig = qBig := by
    unfold f64Add
    rw [zero_add]
    exact roundF64_qBig
  have e2 : f64Add qBig 1 = qBig := by
    unfold f64Add
    exact roundF64_qBig_one
  rw [e1, e2, e2]

/-- Claim C9 counterexample: under the source's IEEE-754 accumulator the
rounded traffic total is NOT permutation-invariant. The parsable traffic
values 1, 1 and `10 ^ 16` GB (labels `剩余:1GB` and
`剩余:10000000000000000GB`, all exactly representable doubles) accumulate
to `10 ^ 16 + 2` with the large value last but to `10 ^ 16` with it
first, and two-decimal rounding keeps the two totals distinct. -/
theorem claim_c9_counterexample :
    ([1, 1, qBig] : List ℚ).Perm [qBig, 1, 1] ∧
    f64SumTraffic [1, 1, qBig] = qBig + 2 ∧
    f64SumTraffic [qBig, 1, 1] = qBig ∧
    jsRound2 ((qBig + 2 : ℚ) : JsNum) ≠ jsRound2 ((qBig : ℚ) : JsNum) := by
  refine ⟨?_, f64Sum_smallFirst, f64Sum_bigFirst, ?_⟩
  · exact (List.Perm.cons 1 (List.Perm.swap qBig 1 [])).trans (List.Perm.swap qBig 1 [1])
  · intro hEq
    unfold jsRound2 at hEq
    rw [WithBot.map_coe, WithBot.map_coe, WithBot.coe_inj] at hEq
    have hf1 : ⌊(qBig + 2) * 100 + 1/2⌋ = 1000000000000000200 := by
      rw [Int.floor_eq_iff]
      unfold qBig
      constructor
      · push_cast
        norm_num
      · push_cast
        norm_num
    have hf2 : ⌊qBig * 100 + 1/2⌋ = 1000000000000000000 := by
      rw [Int.floor_eq_iff]
      unfold qBig
      constructor
      · push_cast
        norm_num
      · push_cast
        norm_num
    rw [hf1, hf2] at hEq
    norm_num at hEq

/-- Claim C9 (amended): node count, protocol histogram, earliest expiry,
and the presence/absence (null-ness) of the traffic total agree on any
two permutations of the batch, and the earliest expiry is the
lexicographically least extracted date (absent exactly when no dates
were extracted); determinism on a fixed batch is immediate since
`aggregate` is a function. The numeric rounded traffic total is NOT
order-independent in the source, whose binary64 accumulation is
non-associative — see the counterexample. -/
theorem claim_c9 (l1 l2 : List Str) (hperm : l1.Perm l2) :
    (aggregate l1).validLines.length = (aggregate l2).validLines.length ∧
    (aggregate l1).protocols = (aggregate l2).protocols ∧
    (totalRemainOf (aggregate l1)).isSome = (totalRemainOf (aggregate l2)).isSome ∧
    earliestOf (aggregate l1) = earliestOf (aggregate l2) ∧
    ((aggregate l1).expireDates = [] → earliestOf (aggregate l1) = none) ∧
    (∀ d, earliestOf (aggregate l1) = some d →
      d ∈ (aggregate l1).expireDates ∧
      ∀ e ∈ (aggregate l1).expireDates, lexLe d e = true) := by
  have hd : (aggregate l1).expireDates.Perm (aggregate l2).expireDates := by
    unfold aggregate
    rw [foldl_expireDates, foldl_expireDates]
    show (l1.filterMap lineExpire).Perm (l2.filterMap lineExpire)
    exact hperm.filterMap lineExpire
  refine ⟨?_, ?_, ?_, ?_, ?_, ?_⟩
  · unfold aggregate
    rw [foldl_validLines, foldl_validLines]
    show ((l1.filter isValidProxyUrl).map jsTrim).length
      = ((l2.filter isValidProxyUrl).map jsTrim).length
    rw [List.length_map, List.length_map, ← List.countP_eq_length_filter,
      ← List.countP_eq_length_filter]
    exact hperm.countP_eq _
  · refine protocols_ext ?_ ?_ ?_
    · unfold aggregate
      rw [foldl_protocols_vless, foldl_protocols_vless, hperm.countP_eq]
    · unfold aggregate
      rw [foldl_protocols_trojan, foldl_protocols_trojan, hperm.countP_eq]
    · unfold aggregate
      rw [foldl_protocols_other, foldl_protocols_other, hperm.countP_eq]
  · unfold totalRemainOf aggregate
    rw [foldl_hasT, foldl_hasT, perm_any_eq hperm]
    split_ifs <;> rfl
  · unfold earliestOf
    rw [sortedDates_eq_of_perm hd]
    by_cases h1 : (aggregate l1).expireDates = []
    · have h2 : (aggregate l2).expireDates = [] := (h1 ▸ hd).symm.eq_nil
      rw [h1, h2]
    · have h2 : (aggregate l2).expireDates ≠ [] := by
        intro hc
        rw [hc] at hd
        exact h1 hd.eq_nil
      have h1e : (aggregate l1).expireDates.isEmpty = false := by
        cases hx : (aggregate l1).expireDates with
        | nil => exact absurd hx h1
        | cons a b => rfl
      have h2e : (aggregate l2).expireDates.isEmpty = false := by
        cases hx : (aggregate l2).expireDates with
        | nil => exact absurd hx h2
        | cons a b => rfl
      rw [h1e, h2e]
  · intro h1
    unfold earliestOf
    simp [h1]
  · intro d hdd
    unfold earliestOf at hdd
    by_cases h1 : (aggregate l1).expireDates.isEmpty
    · rw [if_pos h1] at hdd
      exact absurd hdd (by simp)
    · rw [if_neg h1] at hdd
      cases hs : sortedDates (aggregate l1).expireDates with
      | nil => rw [hs] at hdd; exact absurd hdd (by simp)
      | cons d0 rest =>
        rw [hs] at hdd
        have hd0 : d0 = d := by
          simpa using hdd
        subst hd0
        have hmem : d0 ∈ (aggregate l1).expireDates := by
          have : d0 ∈ sortedDates (aggregate l1).expireDates := by
            rw [hs]; exact List.mem_cons_self d0 rest
          exact (sortedDates_perm _).mem_iff.mp this
        refine ⟨hmem, ?_⟩
        intro e he
        have hes : e ∈ sortedDates (aggregate l1).expireDates :=
          (sortedDates_perm _).mem_iff.mpr he
        rw [hs] at hes
        rcases List.mem_cons.mp hes with rfl | hes
        · exact lexLe_refl e
        · have hsort := sortedDates_sorted (aggregate l1).expireDates
          rw [hs] at hsort
          exact List.rel_of_sorted_cons hsort e hes

/-- Claim C9 witness: the invariance evaluated on a two-line batch and
its swap, whose earliest expiry is the smaller date 2026-05-04. -/
theorem claim_c9_witness :
    earliestOf (aggregate [lineDateA, lineDateB])
      = earliestOf (aggregate [lineDateB, lineDateA]) ∧
    earliestOf (aggregate [lineDateA, lineDateB]) = some ("2026-05-04".toList) := by
  refine ⟨(claim_c9 [lineDateA, lineDateB] [lineDateB, lineDateA]
    (List.Perm.swap lineDateB lineDateA [])).2.2.2.1, ?_⟩
  decide

end SubHub


